import Mathlib

set_option exponentiation.threshold 5000

/-!
# Receipt processor: the scorer and the two handlers of `main.go`

The development embeds the Go program shallowly.

* `F64` is the IEEE-754 binary64 type behind Go's `float64`.  A finite value is
  kept as an integer count of the smallest subnormal `2^-1074`, so every
  operation is exact integer arithmetic followed by one rounding to nearest,
  ties to even (`F64.round`).  The two zeros are identified: every comparison
  the program makes (`==`) treats them alike.
* Go strings are Lean `String`s (valid UTF-8, which is what `encoding/json`
  produces); `len` is the UTF-8 byte length.
* A Go pointer that may be `nil` is an `Option`; dereferencing `none` is the
  run-time panic `Outcome.panic`.
* The global `pointsMap` is passed to the handlers and returned by them; the
  results of `uuid.NewString` are a list of candidates, and `json.Unmarshal`
  is a parameter of `processReciept`.
-/

/-! ## binary64 -/

namespace F64

/-- The quotient `a / d` rounded to the nearest natural number, a tie going to
the even neighbour. -/
def rne (a d : Nat) : Nat :=
  let q := a / d
  let r := a % d
  if 2 * r < d then q else if d < 2 * r then q + 1 else if q % 2 = 0 then q else q + 1

/-- Binary search for the position of the top bit: `ilog2Aux j n` is
`⌊log₂ n⌋` for `0 < n < 2 ^ 2 ^ j`. -/
def ilog2Aux : Nat → Nat → Nat
  | 0, _ => 0
  | j + 1, n => if 2 ^ 2 ^ j ≤ n then 2 ^ j + ilog2Aux j (n / 2 ^ 2 ^ j) else ilog2Aux j n

/-- The magnitude `a / d` (in units of `2^-1074`) rounded to 53 significant
bits: the exponent `e` is chosen so that `a / (d * 2^e)` lies below `2^53`
(`e = 0` covers the subnormal range), and the significand is rounded half to
even. -/
def roundMag (a d : Nat) : Nat :=
  let e := ilog2Aux 12 (a / d) - 52
  rne a (d * 2 ^ e) * 2 ^ e

/-- The magnitudes of the finite binary64 values, in units of `2^-1074`: a
significand below `2^53` times a power of two, below `2^1024 = 2^2098` units. -/
def IsRep (a : Nat) : Prop := a < 2 ^ 2098 ∧ ∃ m e : Nat, m < 2 ^ 53 ∧ a = m * 2 ^ e

/-- The integer `a` or `-a`. -/
def signed (neg : Bool) (a : Nat) : Int := if neg then -(a : Int) else (a : Int)

/-- Largest multiple of `1.0 = 2^1074` units that is at most `a`. -/
def floorMag (a : Nat) : Nat := a / 2 ^ 1074 * 2 ^ 1074

/-- Least multiple of `1.0 = 2^1074` units that is at least `a`. -/
def ceilMag (a : Nat) : Nat := (a + (2 ^ 1074 - 1)) / 2 ^ 1074 * 2 ^ 1074

theorem ilog2Aux_spec (j n : Nat) (h : n < 2 ^ 2 ^ j) :
    (n = 0 ∨ 2 ^ ilog2Aux j n ≤ n) ∧ n < 2 ^ (ilog2Aux j n + 1) := by
  induction j generalizing n with
  | zero =>
    simp only [ilog2Aux]
    have : n < 2 := by simpa using h
    omega
  | succ j ih =>
    simp only [ilog2Aux]
    have hp : (2:Nat) ^ 2 ^ (j + 1) = 2 ^ 2 ^ j * 2 ^ 2 ^ j := by
      rw [← pow_add]; congr 1; rw [pow_succ]; omega
    have hpos : 0 < (2:Nat) ^ 2 ^ j := by positivity
    split
    · rename_i hle
      have hlt : n / 2 ^ 2 ^ j < 2 ^ 2 ^ j := by
        rw [Nat.div_lt_iff_lt_mul hpos]; rw [hp] at h; exact h
      obtain ⟨h1, h2⟩ := ih _ hlt
      have hq : 1 ≤ n / 2 ^ 2 ^ j := (Nat.one_le_div_iff hpos).2 hle
      constructor
      · right
        rcases h1 with h1 | h1
        · omega
        · rw [pow_add]
          calc 2 ^ 2 ^ j * 2 ^ ilog2Aux j (n / 2 ^ 2 ^ j) ≤ 2 ^ 2 ^ j * (n / 2 ^ 2 ^ j) :=
                Nat.mul_le_mul_left _ h1
            _ ≤ n := Nat.mul_div_le n _
      · have hn : n < 2 ^ 2 ^ j * (n / 2 ^ 2 ^ j + 1) := Nat.lt_mul_div_succ n hpos
        have h3 : n / 2 ^ 2 ^ j + 1 ≤ 2 ^ (ilog2Aux j (n / 2 ^ 2 ^ j) + 1) := h2
        calc n < 2 ^ 2 ^ j * (n / 2 ^ 2 ^ j + 1) := hn
          _ ≤ 2 ^ 2 ^ j * 2 ^ (ilog2Aux j (n / 2 ^ 2 ^ j) + 1) := Nat.mul_le_mul_left _ h3
          _ = 2 ^ (2 ^ j + ilog2Aux j (n / 2 ^ 2 ^ j) + 1) := by rw [← pow_add]; congr 1
    · rename_i hle
      exact ih n (by omega)

theorem rne_le (a d : Nat) : rne a d ≤ a / d + 1 := by
  unfold rne; simp only; split_ifs <;> omega

theorem le_rne (a d : Nat) : a / d ≤ rne a d := by
  unfold rne; simp only; split_ifs <;> omega

theorem isRep_roundMag (a d : Nat) (h1 : a / d < 2 ^ 2098) (h2 : roundMag a d < 2 ^ 2098) :
    IsRep (roundMag a d) := by
  refine ⟨h2, ?_⟩
  unfold roundMag at *
  simp only at *
  have hn : a / d < 2 ^ 2 ^ 12 := lt_trans h1 (by norm_num)
  obtain ⟨-, hub⟩ := ilog2Aux_spec 12 (a / d) hn
  generalize ilog2Aux 12 (a / d) = L at *
  have hq : a / (d * 2 ^ (L - 52)) < 2 ^ 53 := by
    rw [← Nat.div_div_eq_div_mul, Nat.div_lt_iff_lt_mul (by positivity), ← pow_add]
    exact lt_of_lt_of_le hub (Nat.pow_le_pow_right (by norm_num) (by omega))
  have hm := rne_le a (d * 2 ^ (L - 52))
  generalize rne a (d * 2 ^ (L - 52)) = m at *
  rcases Nat.lt_or_ge m (2 ^ 53) with hlt | hge
  · exact ⟨m, L - 52, hlt, rfl⟩
  · have hm53 : m = 2 ^ 53 := by omega
    subst hm53
    exact ⟨2 ^ 52, L - 52 + 1, by norm_num, by rw [pow_succ]; ring⟩

theorem natAbs_signed (neg : Bool) (a : Nat) : (signed neg a).natAbs = a := by
  cases neg <;> simp [signed]

/-- A representable magnitude of at least `2^53` whole units is itself whole. -/
theorem IsRep.dvd_of_le {a : Nat} (h : IsRep a) (hbig : 2 ^ 53 * 2 ^ 1074 ≤ a) :
    a / 2 ^ 1074 * 2 ^ 1074 = a := by
  obtain ⟨-, m, e, hm, rfl⟩ := h
  have he : 1074 ≤ e := by
    by_contra hc
    have h2 : (2:Nat) ^ e ≤ 2 ^ 1074 := Nat.pow_le_pow_right (by norm_num) (by omega)
    have h3 : m * 2 ^ e < 2 ^ 53 * 2 ^ 1074 :=
      Nat.mul_lt_mul_of_lt_of_le hm h2 (by positivity)
    omega
  obtain ⟨c, rfl⟩ := Nat.exists_eq_add_of_le he
  exact Nat.div_mul_cancel ⟨m * 2 ^ c, by rw [pow_add]; ring⟩

theorem isRep_floorMag {a : Nat} (h : IsRep a) : IsRep (floorMag a) := by
  unfold floorMag
  rcases Nat.lt_or_ge (a / 2 ^ 1074) (2 ^ 53) with hq | hq
  · refine ⟨lt_of_le_of_lt (Nat.div_mul_le_self a _) h.1, a / 2 ^ 1074, 1074, hq, rfl⟩
  · have hbig : 2 ^ 53 * 2 ^ 1074 ≤ a :=
      le_trans (Nat.mul_le_mul_right _ hq) (Nat.div_mul_le_self a _)
    rw [h.dvd_of_le hbig]; exact h

theorem isRep_ceilMag {a : Nat} (h : IsRep a) : IsRep (ceilMag a) := by
  unfold ceilMag
  rcases Nat.lt_or_ge ((a + (2 ^ 1074 - 1)) / 2 ^ 1074) (2 ^ 53) with hq | hq
  · refine ⟨?_, (a + (2 ^ 1074 - 1)) / 2 ^ 1074, 1074, hq, rfl⟩
    calc (a + (2 ^ 1074 - 1)) / 2 ^ 1074 * 2 ^ 1074 < 2 ^ 53 * 2 ^ 1074 :=
          Nat.mul_lt_mul_of_pos_right hq (by positivity)
      _ < 2 ^ 2098 := by norm_num
  · have hbig : 2 ^ 53 * 2 ^ 1074 ≤ a + (2 ^ 1074 - 1) :=
      le_trans (Nat.mul_le_mul_right _ hq) (Nat.div_mul_le_self _ _)
    obtain ⟨hlt, m, e, hm, rfl⟩ := h
    have he : 1074 < e := by
      by_contra hc
      have h2 : (2:Nat) ^ e ≤ 2 ^ 1074 := Nat.pow_le_pow_right (by norm_num) (by omega)
      have h3 : m * 2 ^ e ≤ (2 ^ 53 - 1) * 2 ^ 1074 :=
        Nat.mul_le_mul (by omega) h2
      have h4 : (2 ^ 53 - 1) * 2 ^ 1074 + 2 ^ 1074 = 2 ^ 53 * 2 ^ 1074 := by norm_num
      have h5 : 0 < 2 ^ 1074 := by positivity
      omega
    obtain ⟨c, rfl⟩ := Nat.exists_eq_add_of_le (Nat.le_of_lt he)
    have hdiv : (m * 2 ^ (1074 + c) + (2 ^ 1074 - 1)) / 2 ^ 1074 = m * 2 ^ c := by
      rw [pow_add, Nat.mul_comm (2 ^ 1074) (2 ^ c), ← mul_assoc, Nat.add_comm,
        Nat.add_mul_div_right _ _ (by positivity),
        Nat.div_eq_of_lt (by norm_num), Nat.zero_add]
    rw [hdiv]
    refine ⟨?_, m, c + 1074, hm, by rw [pow_add]; ring⟩
    calc m * 2 ^ c * 2 ^ 1074 = m * 2 ^ (1074 + c) := by rw [pow_add]; ring
      _ < 2 ^ 2098 := hlt

end F64

/-- Go's `float64`: a NaN, an infinity with its sign, or a finite value
`k * 2^-1074` whose magnitude is a binary64 magnitude. -/
inductive F64 where
  | nan
  | inf (neg : Bool)
  | fin (k : Int) (rep : F64.IsRep k.natAbs)
  deriving DecidableEq

namespace F64

/-- The binary64 nearest to `n / d` units of `2^-1074`, ties to even; a result
of `2^1024` or more overflows to the infinity of the same sign. -/
def round (n : Int) (d : Nat) : F64 :=
  if h1 : n.natAbs / d < 2 ^ 2098 then
    if h2 : roundMag n.natAbs d < 2 ^ 2098 then
      fin (signed (decide (n < 0)) (roundMag n.natAbs d))
        (by rw [natAbs_signed]; exact isRep_roundMag _ _ h1 h2)
    else inf (decide (n < 0))
  else inf (decide (n < 0))

/-- The binary64 nearest to the rational `n / d`: what `strconv.ParseFloat`
and the conversion of a Go constant return for it. -/
def ofRat (n : Int) (d : Nat) : F64 := round (n * ((2 ^ 1074 : Nat) : Int)) d

/-- Go's conversion `float64(n)` of an integer. -/
def ofInt (n : Int) : F64 := round (n * ((2 ^ 1074 : Nat) : Int)) 1

/-- Unary minus. -/
def neg : F64 → F64
  | nan => nan
  | inf s => inf (!s)
  | fin k h => fin (-k) (by rw [Int.natAbs_neg]; exact h)

/-- Go's `x + y` on `float64`. -/
def add : F64 → F64 → F64
  | fin a _, fin b _ => round (a + b) 1
  | fin _ _, inf s => inf s
  | inf s, fin _ _ => inf s
  | inf s, inf t => if s = t then inf s else nan
  | nan, _ => nan
  | _, nan => nan

/-- Go's `x - y` on `float64`. -/
def sub (x y : F64) : F64 := add x (neg y)

/-- Go's `x * y` on `float64`. -/
def mul : F64 → F64 → F64
  | fin a _, fin b _ => round (a * b) (2 ^ 1074)
  | fin a _, inf s => if a = 0 then nan else inf (xor s (decide (a < 0)))
  | inf s, fin b _ => if b = 0 then nan else inf (xor s (decide (b < 0)))
  | inf s, inf t => inf (xor s t)
  | nan, _ => nan
  | _, nan => nan

/-- Go's `x / y` on `float64`.  A zero divisor is taken as `+0`; the program
divides by the constant `0.25` only. -/
def div : F64 → F64 → F64
  | fin a _, fin b _ =>
    if b = 0 then (if a = 0 then nan else inf (decide (a < 0)))
    else round (a * ((2 ^ 1074 : Nat) : Int) * b.sign) b.natAbs
  | fin _ _, inf _ => fin 0 ⟨by norm_num, 0, 0, by norm_num, rfl⟩
  | inf s, fin b _ => inf (xor s (decide (b < 0)))
  | inf _, inf _ => nan
  | nan, _ => nan
  | _, nan => nan

/-- Go's `math.Floor`. -/
def floor : F64 → F64
  | nan => nan
  | inf s => inf s
  | fin k h =>
    if 0 ≤ k then fin (floorMag k.natAbs) (by rw [Int.natAbs_ofNat]; exact isRep_floorMag h)
    else fin (-(ceilMag k.natAbs : Int))
      (by rw [Int.natAbs_neg, Int.natAbs_ofNat]; exact isRep_ceilMag h)

/-- Go's `math.Ceil`. -/
def ceil : F64 → F64
  | nan => nan
  | inf s => inf s
  | fin k h =>
    if 0 ≤ k then fin (ceilMag k.natAbs) (by rw [Int.natAbs_ofNat]; exact isRep_ceilMag h)
    else fin (-(floorMag k.natAbs : Int))
      (by rw [Int.natAbs_neg, Int.natAbs_ofNat]; exact isRep_floorMag h)

/-- Go's `x == y` on `float64`: a NaN equals nothing. -/
def eq : F64 → F64 → Bool
  | fin a _, fin b _ => decide (a = b)
  | inf s, inf t => s == t
  | _, _ => false

/-- Go's `x <= y` on `float64`: false whenever a NaN is involved. -/
def le : F64 → F64 → Bool
  | fin a _, fin b _ => decide (a ≤ b)
  | fin _ _, inf t => !t
  | inf s, fin _ _ => s
  | inf s, inf t => s || !t
  | _, _ => false

/-- The constant `0`. -/
def zero : F64 := ofInt 0

end F64

/-! ## Strings and the library functions the scorer calls -/

/-- Number of bytes of the UTF-8 encoding of a character. -/
def utf8Len (c : Char) : Nat :=
  if c.toNat < 0x80 then 1 else if c.toNat < 0x800 then 2 else if c.toNat < 0x10000 then 3 else 4

/-- Go's `len(s)` on a string: the number of bytes, not of characters. -/
def len (s : String) : Nat := (s.data.map utf8Len).sum

/-- An ASCII decimal digit. -/
def isDigit (c : Char) : Bool := decide ('0'.toNat ≤ c.toNat ∧ c.toNat ≤ '9'.toNat)

/-- The class `[a-zA-Z0-9]` of the regular expression. -/
def isAlnum (c : Char) : Bool :=
  decide ('a'.toNat ≤ c.toNat ∧ c.toNat ≤ 'z'.toNat) ||
  decide ('A'.toNat ≤ c.toNat ∧ c.toNat ≤ 'Z'.toNat) || isDigit c

/-- The program's `nonAlphanumericRegex.ReplaceAllString(s, "")` for the
pattern `[^a-zA-Z0-9]+`: every maximal run of characters outside the class is
replaced by the empty string, which leaves the characters of the class. -/
def ReplaceAllString (s : String) : String := String.mk (s.data.filter isAlnum)

namespace unicode

/-- Go's `unicode.IsSpace`: the characters with the Unicode White_Space
property. -/
def IsSpace (c : Char) : Bool :=
  let n := c.toNat
  decide (0x09 ≤ n ∧ n ≤ 0x0D) || n == 0x20 || n == 0x85 || n == 0xA0 || n == 0x1680 ||
  decide (0x2000 ≤ n ∧ n ≤ 0x200A) || n == 0x2028 || n == 0x2029 || n == 0x202F ||
  n == 0x205F || n == 0x3000

end unicode

namespace strings

/-- The pieces of a character list between the occurrences of `sep`. -/
def splitChars (sep : Char) : List Char → List (List Char)
  | [] => [[]]
  | c :: cs =>
    if c = sep then [] :: splitChars sep cs
    else
      match splitChars sep cs with
      | [] => [[c]]
      | p :: ps => (c :: p) :: ps

/-- Go's `strings.Split(s, sep)` for a separator of one character: the
substrings between the separators, `n + 1` of them when `sep` occurs `n`
times. -/
def Split (s : String) (sep : Char) : List String := (splitChars sep s.data).map String.mk

/-- Go's `strings.TrimSpace`: the string without its leading and trailing
white space, as `unicode.IsSpace` defines it. -/
def TrimSpace (s : String) : String :=
  String.mk ((s.data.dropWhile unicode.IsSpace).reverse.dropWhile unicode.IsSpace).reverse

end strings

namespace strconv

/-- Value of a string of decimal digits, most significant first. -/
def digitsVal (ds : List Char) : Nat := ds.foldl (fun n c => n * 10 + (c.toNat - '0'.toNat)) 0

/-- Go's `strconv.Atoi` on a 64-bit platform: an optional sign, then one or
more decimal digits, the value within the range of `int`; `none` stands for
the returned error (syntax or range). -/
def Atoi (s : String) : Option Int :=
  match s.data with
  | [] => none
  | c :: rest =>
    let neg := c = '-'
    let ds := if c = '-' ∨ c = '+' then rest else c :: rest
    if ds = [] then none
    else if ds.all isDigit then
      let v : Int := if neg then -(digitsVal ds : Int) else (digitsVal ds : Int)
      if -((2 ^ 63 : Nat) : Int) ≤ v ∧ v < ((2 ^ 63 : Nat) : Int) then some v else none
    else none

end strconv

/-- The part of Go's `time.Time` the scorer reads: the calendar date. -/
structure Time where
  year : Nat
  month : Nat
  day : Nat
  deriving DecidableEq

/-- Go's `Time.Day`: the day of the month. -/
def Time.Day (t : Time) : Nat := t.day

namespace time

/-- Go's `time.isLeap`. -/
def isLeap (year : Nat) : Bool := year % 4 == 0 && (year % 100 != 0 || year % 400 == 0)

/-- Go's `time.daysIn`: the number of days of a month of a year. -/
def daysIn (month year : Nat) : Nat :=
  if month = 2 then (if isLeap year then 29 else 28)
  else if month = 4 ∨ month = 6 ∨ month = 9 ∨ month = 11 then 30 else 31

/-- Go's `time.Parse` for the layout `"2006-01-02"`: four digits of year, a
hyphen, two digits of month in `1..12`, a hyphen, two digits of day, nothing
after them, and the day within the month; `none` stands for the returned
error. -/
def Parse (value : String) : Option Time :=
  match value.data with
  | [y1, y2, y3, y4, s1, m1, m2, s2, d1, d2] =>
    if [y1, y2, y3, y4, m1, m2, d1, d2].all isDigit ∧ s1 = '-' ∧ s2 = '-' then
      let year := strconv.digitsVal [y1, y2, y3, y4]
      let month := strconv.digitsVal [m1, m2]
      let day := strconv.digitsVal [d1, d2]
      if month < 1 ∨ 12 < month then none
      else if day < 1 ∨ daysIn month year < day then none
      else some ⟨year, month, day⟩
    else none
  | _ => none

end time

/-! ## The data model of `main.go` -/

/-- The struct `Item`: both fields are pointers, `nil` when the JSON document
lacks the field or gives `null`. -/
structure Item where
  ShortDescription : Option String
  Price : Option F64
  deriving DecidableEq

/-- The struct `Receipt`; `Items` is a pointer to a slice of pointers. -/
structure Receipt where
  Retailer : Option String
  PurchaseDate : Option String
  PurchaseTime : Option String
  Total : Option F64
  Items : Option (List (Option Item))
  deriving DecidableEq

/-- What a call of `calculatePoints` does: it returns the pair
`(points, err)`, or it stops in a run-time panic (a `nil` dereference). -/
inductive Outcome where
  | ret (points : F64) (err : Option String)
  | panic
  deriving DecidableEq

/-- The statement `return -1, errors.New("invalid json")`. -/
def invalidJson : Outcome := .ret (F64.ofInt (-1)) (some "invalid json")

/-- Result of the loop of lines 107-111 over the items. -/
inductive ItemCheck where
  | pass
  | invalid
  | panic
  deriving DecidableEq

/-- The loop of lines 107-111: the first entry decides; a `nil` entry is
dereferenced, an item with a `nil` field makes the function return the error. -/
def checkItems : List (Option Item) → ItemCheck
  | [] => .pass
  | none :: _ => .panic
  | some it :: rest =>
    if it.ShortDescription = none ∨ it.Price = none then .invalid else checkItems rest

/-- Line 116: the retailer's alphanumeric characters. -/
def addRetailer (retailer : String) (points : F64) : F64 :=
  points.add (F64.ofInt (len (ReplaceAllString retailer)))

/-- Lines 118-120: the round-dollar test `total - floor(total) == 0`. -/
def addRoundDollar (total points : F64) : F64 :=
  if (total.sub total.floor).eq (F64.ofInt 0) then points.add (F64.ofInt 50) else points

/-- Lines 122-124: the quarter test `total/0.25 - floor(total/0.25) == 0`. -/
def addQuarter (total points : F64) : F64 :=
  if ((total.div (F64.ofRat 1 4)).sub (total.div (F64.ofRat 1 4)).floor).eq (F64.ofInt 0)
  then points.add (F64.ofInt 25) else points

/-- Line 126: `float64(len(items)/2) * 5`, the division being that of `int`;
the product and the sum are rounded one after the other. -/
def addPairs (n : Nat) (points : F64) : F64 :=
  points.add ((F64.ofInt ((n / 2 : Nat) : Int)).mul (F64.ofInt 5))

/-- The loop of lines 128-132, `none` for a `nil` dereference: the price is
read only when the trimmed description has a length divisible by three. -/
def addItems : List (Option Item) → F64 → Option F64
  | [], points => some points
  | none :: _, _ => none
  | some it :: rest, points =>
    match it.ShortDescription with
    | none => none
    | some d =>
      if len (strings.TrimSpace d) % 3 = 0 then
        match it.Price with
        | none => none
        | some price => addItems rest (points.add (price.mul (F64.ofRat 2 10)).ceil)
      else addItems rest points

/-- Lines 134-136: the afternoon test on the parsed hour and minute. -/
def addAfternoon (h m : Int) (points : F64) : F64 :=
  if (h ≥ 14 ∧ h < 16) ∨ (h = 16 ∧ m = 0) then points.add (F64.ofInt 10) else points

/-- Lines 138-140: the odd-day test. -/
def addOddDay (pDate : Time) (points : F64) : F64 :=
  if pDate.Day % 2 = 1 then points.add (F64.ofInt 6) else points

/-- Lines 113-142, once validation has passed. -/
def score (retailer : String) (total : F64) (items : List (Option Item)) (h m : Int)
    (pDate : Time) : Outcome :=
  let points := F64.ofInt 0
  let points := addRetailer retailer points
  let points := addRoundDollar total points
  let points := addQuarter total points
  let points := addPairs items.length points
  match addItems items points with
  | none => .panic
  | some points =>
    let points := addAfternoon h m points
    let points := addOddDay pDate points
    .ret points none

/-- The function `calculatePoints` (lines 68-143).  The argument is the
pointer `receipt`. -/
def calculatePoints (receipt : Option Receipt) : Outcome :=
  match receipt with
  | none => .panic
  | some r =>
    match r.Retailer, r.PurchaseDate, r.PurchaseTime, r.Total, r.Items with
    | some retailer, some purchaseDate, some purchaseTime, some total, some items =>
      match strings.Split purchaseTime ':' with
      | [s0, s1] =>
        match strconv.Atoi s0 with
        | none => invalidJson
        | some h =>
          if h < 0 ∨ h > 23 then invalidJson
          else
            match strconv.Atoi s1 with
            | none => invalidJson
            | some m =>
              if m < 0 ∨ m > 59 then invalidJson
              else
                match time.Parse purchaseDate with
                | none => invalidJson
                | some pDate =>
                  match checkItems items with
                  | .panic => .panic
                  | .invalid => invalidJson
                  | .pass => score retailer total items h m pDate
      | _ => invalidJson
    | _, _, _, _, _ => invalidJson

/-! ## Inputs used in the statements -/

/-- A receipt with every field present, the given purchase time and total, no
items, an even day and the retailer `"Target"`. -/
def plainReceipt (purchaseTime : String) (total : F64) : Receipt :=
  { Retailer := some "Target"
    PurchaseDate := some "2022-01-02"
    PurchaseTime := some purchaseTime
    Total := some total
    Items := some [] }

/-- The receipt decoded from a body whose `items` are `[null, {"shortDescription":
"Pepsi"}]`: the first entry is a `nil` pointer, the second item lacks its
price. -/
def nilEntryReceipt : Receipt :=
  { Retailer := some "Target"
    PurchaseDate := some "2022-01-01"
    PurchaseTime := some "13:01"
    Total := some (F64.ofRat 125 100)
    Items := some [ none, some ⟨some "Pepsi", none⟩ ] }

/-- A receipt whose second item lacks its price. -/
def missingPriceReceipt : Receipt :=
  { Retailer := some "Target"
    PurchaseDate := some "2022-01-01"
    PurchaseTime := some "13:01"
    Total := some (F64.ofRat 125 100)
    Items := some
      [ some ⟨some "Gatorade", some (F64.ofRat 225 100)⟩,
        some ⟨some "Pepsi", none⟩ ] }

/-- A receipt with a negative total and a negative price. -/
def negativePriceReceipt : Receipt :=
  { Retailer := some "Target"
    PurchaseDate := some "2022-01-02"
    PurchaseTime := some "13:01"
    Total := some (F64.ofInt (-1000))
    Items := some [ some ⟨some "abc", some (F64.ofInt (-1000))⟩ ] }

/-- Go's `x >= 0` on `float64`. -/
def F64.NonNeg (x : F64) : Prop := (F64.ofInt 0).le x = true

/-- The upstream example receipt (scenario A). -/
def scenarioA : Receipt :=
  { Retailer := some "Target"
    PurchaseDate := some "2022-01-01"
    PurchaseTime := some "13:01"
    Total := some (F64.ofRat 3535 100)
    Items := some
      [ some ⟨some "Mountain Dew 12PK", some (F64.ofRat 649 100)⟩,
        some ⟨some "Emils Cheese Pizza", some (F64.ofRat 1225 100)⟩,
        some ⟨some "Knorr Creamy Chicken", some (F64.ofRat 126 100)⟩,
        some ⟨some "Doritos Nacho Cheese", some (F64.ofRat 335 100)⟩,
        some ⟨some "   Klarbrunn 12-PK 12 FL OZ  ", some (F64.ofRat 1200 100)⟩ ] }

/-- The number a list of decimal digits denotes, most significant digit first. -/
def decimalValue (ds : List Char) : Nat :=
  Nat.ofDigits 10 (ds.reverse.map (fun c => c.toNat - 48))

/-- The string `s` is a decimal integer of value `v`: an optional sign followed
by one or more decimal digits. -/
def IsDecimalInteger (s : String) (v : Int) : Prop :=
  ∃ ds : List Char, ds ≠ [] ∧ (∀ c ∈ ds, c.isDigit = true) ∧
    ((s.data = ds ∧ v = (decimalValue ds : Int)) ∨
     (s.data = '+' :: ds ∧ v = (decimalValue ds : Int)) ∨
     (s.data = '-' :: ds ∧ v = -(decimalValue ds : Int)))

/-- The purchase times of claim C4: two parts around the one colon, each a
decimal integer, the hour in `[0,23]` and the minute in `[0,59]`. -/
def ValidTime (t : String) : Prop :=
  ∃ (p0 p1 : String) (h m : Int),
    t.data = p0.data ++ ':' :: p1.data ∧ ':' ∉ p0.data ∧ ':' ∉ p1.data ∧
    IsDecimalInteger p0 h ∧ IsDecimalInteger p1 m ∧ 0 ≤ h ∧ h ≤ 23 ∧ 0 ≤ m ∧ m ≤ 59

/-- The strict form of claim C5: exactly two decimal digits, a colon, and two
decimal digits. -/
def isHHMM (t : String) : Bool :=
  match t.data with
  | [h1, h2, c, m1, m2] => h1.isDigit && h2.isDigit && c == ':' && m1.isDigit && m2.isDigit
  | _ => false

/-- The character that writes the decimal digit `n`. -/
def digitChar (n : Nat) : Char := Char.ofNat (48 + n)

/-- Number of days of month `m` of year `y` in the Gregorian calendar; a leap
year is a multiple of 4 that is not a multiple of 100, or a multiple of 400. -/
def daysInMonth (y m : Nat) : Nat :=
  match m with
  | 1 => 31
  | 2 => if (4 ∣ y ∧ ¬ 100 ∣ y) ∨ 400 ∣ y then 29 else 28
  | 3 => 31
  | 4 => 30
  | 5 => 31
  | 6 => 30
  | 7 => 31
  | 8 => 31
  | 9 => 30
  | 10 => 31
  | 11 => 30
  | 12 => 31
  | _ => 0

/-- The purchase dates of claim C6: a calendar date written `YYYY-MM-DD` with
four digits of year, two of month and two of day, and nothing else. -/
def ValidDate (d : String) : Prop :=
  ∃ y m dd : Nat, y ≤ 9999 ∧ 1 ≤ m ∧ m ≤ 12 ∧ 1 ≤ dd ∧ dd ≤ daysInMonth y m ∧
    d.data = [digitChar (y / 1000), digitChar (y / 100 % 10), digitChar (y / 10 % 10),
      digitChar (y % 10), '-', digitChar (m / 10), digitChar (m % 10), '-',
      digitChar (dd / 10), digitChar (dd % 10)]

/-- The value is a whole number. -/
def F64.isWhole : F64 → Bool
  | .fin k _ => decide (((2 ^ 1074 : Nat) : Int) ∣ k)
  | _ => false

/-- The value is a multiple of `0.25 = 2^1072` units. -/
def F64.isQuarterMultiple : F64 → Bool
  | .fin k _ => decide (((2 ^ 1072 : Nat) : Int) ∣ k)
  | _ => false

/-- The value is finite and of magnitude `2^1022` or more, so that dividing it
by `0.25` overflows. -/
def F64.isHuge : F64 → Bool
  | .fin k _ => decide (2 ^ 2096 ≤ k.natAbs)
  | _ => false

/-- What claim C7 says the total adds. -/
def claimedTotalBonus (total : F64) : Nat :=
  if total.isWhole then 75 else if total.isQuarterMultiple then 25 else 0

/-- What lines 118-124 add for the total. -/
def totalBonus (total : F64) : Nat :=
  if total.isWhole then (if total.isHuge then 50 else 75)
  else if total.isQuarterMultiple then 25 else 0

/-- The total `1e308`. -/
def bigTotal : F64 := F64.ofRat ((10 ^ 308 : Nat) : Int) 1

/-- A receipt with one item of price `10.00` and the given description, the
retailer `"Target"`, no bonus from the total, the time or the day. -/
def oneItemReceipt (description : String) : Receipt :=
  { Retailer := some "Target"
    PurchaseDate := some "2022-01-02"
    PurchaseTime := some "13:01"
    Total := some (F64.ofRat 1 10)
    Items := some [ some ⟨some description, some (F64.ofInt 10)⟩ ] }

/-- The points accumulated by lines 113-132, before the purchase time is
looked at; `none` for a `nil` dereference in the loop. -/
def pointsBeforeTime (retailer : String) (total : F64) (items : List (Option Item)) :
    Option F64 :=
  addItems items (addPairs items.length (addQuarter total (addRoundDollar total
    (addRetailer retailer (F64.ofInt 0)))))

/-! ## The store and the two handlers -/

/-- The global `pointsMap`, a Go `map[string]float64`: the entries, the first
one for a key being the one a lookup finds. -/
abbrev PointsMap := List (String × F64)

/-- The lookup `pointsMap[id]` with its `ok` flag. -/
def PointsMap.get (m : PointsMap) (id : String) : Option F64 := List.lookup id m

/-- The assignment `pointsMap[id] = points`: the key gets the value, whether
it was there or not. -/
def PointsMap.set (m : PointsMap) (id : String) (points : F64) : PointsMap :=
  (id, points) :: m.filter (fun e => e.1 != id)

/-- What a handler writes as the body of its response. -/
inductive Body where
  | text (msg : String)
  | id (id : String)
  | points (points : F64)
  deriving DecidableEq

/-- The response a handler writes: the status code and the body.  `http.Error`
writes its message as plain text; a successful `Encode` writes the JSON object
of `Rid` or `Rpoints` with the status 200. -/
structure Response where
  status : Nat
  body : Body
  deriving DecidableEq

/-- The method `Encode` of `json.Encoder` on an `Rpoints`: a finite number is
written (`none`), an infinity or a NaN is the error `UnsupportedValueError`,
whose message is returned, and nothing is written. -/
def encodePointsError : F64 → Option String
  | .fin _ _ => none
  | .inf false => some "json: unsupported value: +Inf"
  | .inf true => some "json: unsupported value: -Inf"
  | .nan => some "json: unsupported value: NaN"

/-- The function `getPoints` (lines 44-65): the response written, and the
`pointsMap`, which it only reads. -/
def getPoints (pointsMap : PointsMap) (id : String) : Response × PointsMap :=
  match pointsMap.get id with
  | some points =>
    match encodePointsError points with
    | none => (⟨200, .points points⟩, pointsMap)
    | some msg => (⟨400, .text msg⟩, pointsMap)
  | none => (⟨404, .text "No receipt found for that id"⟩, pointsMap)

/-- The function `generateId` (lines 184-195).  The list holds the results of
the successive calls of `uuid.NewString`; the loop takes the first one that is
not a key and leaves the rest.  `none` stands for a loop that has not come
to an end with the candidates given. -/
def generateId (pointsMap : PointsMap) : List String → Option (String × List String)
  | [] => none
  | id :: rest =>
    match pointsMap.get id with
    | some _ => generateId pointsMap rest
    | none => some (id, rest)

/-- What a call of `processReciept` does: it writes a response and leaves a
`pointsMap` and the unused identifiers, or it panics, or it stays in the loop
of `generateId`. -/
inductive Handled where
  | responded (resp : Response) (pointsMap : PointsMap) (uuids : List String)
  | panic
  | looping
  deriving DecidableEq

/-- The function `processReciept` (lines 146-181).  `body` is the result of
`ioutil.ReadAll`, the message of the error or the bytes read; `unmarshal` is
`json.Unmarshal` into the pointer `receipt`, `none` for an error and
`some none` for a pointer left `nil`. -/
def processReciept (unmarshal : String → Option (Option Receipt)) (pointsMap : PointsMap)
    (uuids : List String) (body : Except String String) : Handled :=
  match body with
  | .error msg => .responded ⟨500, .text msg⟩ pointsMap uuids
  | .ok bytes =>
    match unmarshal bytes with
    | none => .responded ⟨400, .text "The receipt is invalid"⟩ pointsMap uuids
    | some receipt =>
      match calculatePoints receipt with
      | .panic => .panic
      | .ret _ (some _) => .responded ⟨400, .text "The receipt is invalid"⟩ pointsMap uuids
      | .ret points none =>
        match generateId pointsMap uuids with
        | none => .looping
        | some (id, rest) => .responded ⟨200, .id id⟩ (pointsMap.set id points) rest

/-- The value is a number, not an infinity or a NaN. -/
def F64.isFinite : F64 → Bool
  | .fin _ _ => true
  | _ => false

/-- A decoder that fills the pointer `receipt` with the given value for every
body. -/
def decodeAs (receipt : Option Receipt) : String → Option (Option Receipt) :=
  fun _ => some receipt

/-- A decoder that rejects every body. -/
def decodeNothing : String → Option (Option Receipt) := fun _ => none

/-- A valid receipt whose nine items `abc` cost `1e308` each. -/
def overflowReceipt : Receipt :=
  { Retailer := some "Target"
    PurchaseDate := some "2022-01-02"
    PurchaseTime := some "13:01"
    Total := some (F64.ofRat 1 10)
    Items := some (List.replicate 9 (some ⟨some "abc", some bigTotal⟩)) }

/-- The receipt decoded from a body whose `items` are `[null]`. -/
def nullItemReceipt : Receipt :=
  { Retailer := some "Target"
    PurchaseDate := some "2022-01-02"
    PurchaseTime := some "13:01"
    Total := some (F64.ofRat 1 10)
    Items := some [none] }

/-- The entries of a list of items that all have a description and a price. -/
def fullItems (items : List (String × F64)) : List (Option Item) :=
  items.map (fun x => some ⟨some x.1, some x.2⟩)

/-- The value, when it is a number, is a whole number. -/
def F64.IsIntegral (x : F64) : Prop := x.isFinite = true → x.isWhole = true

/-- A receipt of the retailer `retailer` that earns nothing else: the total is
`0.10`, there is no item, the day is even and the time is `13:01`. -/
def retailerReceipt (retailer : String) : Receipt :=
  { Retailer := some retailer
    PurchaseDate := some "2022-01-02"
    PurchaseTime := some "13:01"
    Total := some (F64.ofRat 1 10)
    Items := some [] }

/-- A receipt of `n` items `"ab"` at `1.00`, none of which earns the
description bonus; the retailer `"Target"` earns 6 and nothing else earns. -/
def pairReceipt (n : Nat) : Receipt :=
  { Retailer := some "Target"
    PurchaseDate := some "2022-01-02"
    PurchaseTime := some "13:01"
    Total := some (F64.ofRat 1 10)
    Items := some (List.replicate n (some ⟨some "ab", some (F64.ofInt 1)⟩)) }

/-- A receipt of three items, the second of which has a description of two
spaces. -/
def blankItemReceipt : Receipt :=
  { Retailer := some "Target"
    PurchaseDate := some "2022-01-02"
    PurchaseTime := some "13:01"
    Total := some (F64.ofRat 1 10)
    Items := some
      [ some ⟨some "abcd", some (F64.ofInt 5)⟩,
        some ⟨some "  ", some (F64.ofInt 10)⟩,
        some ⟨some "xyz", some (F64.ofInt 7)⟩ ] }
/-! ## Facts about rounding -/

namespace F64

theorem rne_of_dvd {a d : Nat} (hd : 0 < d) (h : d ∣ a) : rne a d = a / d := by
  unfold rne
  have hr : a % d = 0 := Nat.mod_eq_zero_of_dvd h
  simp only [hr, Nat.mul_zero, hd, if_true]

/-- Rounding leaves a binary64 magnitude as it is. -/
theorem roundMag_rep {a : Nat} (h : IsRep a) : roundMag a 1 = a := by
  obtain ⟨hlt, m, e0, hm, rfl⟩ := h
  unfold roundMag
  simp only [Nat.div_one, Nat.one_mul]
  obtain ⟨hlb, -⟩ := ilog2Aux_spec 12 (m * 2 ^ e0) (lt_trans hlt (by norm_num))
  generalize ilog2Aux 12 (m * 2 ^ e0) = L at *
  have hdvd : 2 ^ (L - 52) ∣ m * 2 ^ e0 := by
    rcases hlb with h0 | hlb
    · rw [h0]; exact dvd_zero _
    · have hlt2 : (2:Nat) ^ L < 2 ^ (53 + e0) := by
        calc 2 ^ L ≤ m * 2 ^ e0 := hlb
          _ < 2 ^ 53 * 2 ^ e0 := Nat.mul_lt_mul_of_pos_right hm (by positivity)
          _ = 2 ^ (53 + e0) := by rw [pow_add]
      have hL : L < 53 + e0 := (Nat.pow_lt_pow_iff_right (by norm_num)).1 hlt2
      exact Dvd.dvd.mul_left (pow_dvd_pow 2 (by omega)) m
  rw [rne_of_dvd (by positivity) hdvd]
  exact Nat.div_mul_cancel hdvd

theorem signed_natAbs (k : Int) : signed (decide (k < 0)) k.natAbs = k := by
  unfold signed
  by_cases h : k < 0
  · simp only [h, decide_True, if_true]; omega
  · simp only [h, decide_False, Bool.false_eq_true, if_false]; omega

/-- Rounding a binary64 value gives the value back. -/
theorem round_rep (k : Int) (h : IsRep k.natAbs) : round k 1 = fin k h := by
  unfold round
  have h1 : k.natAbs / 1 < 2 ^ 2098 := by rw [Nat.div_one]; exact h.1
  have h2 : roundMag k.natAbs 1 < 2 ^ 2098 := by rw [roundMag_rep h]; exact h.1
  rw [dif_pos h1, dif_pos h2]
  congr 1
  rw [roundMag_rep h, signed_natAbs]

/-- Scaling numerator and denominator leaves the rounding unchanged. -/
theorem roundMag_mul_right (b d : Nat) (hd : 0 < d) : roundMag (b * d) d = roundMag b 1 := by
  unfold roundMag
  simp only [Nat.mul_div_cancel _ hd, Nat.div_one, Nat.one_mul]
  generalize ilog2Aux 12 b - 52 = e
  congr 1
  unfold rne
  have hq : b * d / (d * 2 ^ e) = b / 2 ^ e := by
    rw [Nat.mul_comm b d]; exact Nat.mul_div_mul_left _ _ hd
  have hr : b * d % (d * 2 ^ e) = d * (b % 2 ^ e) := by
    rw [Nat.mul_comm b d]; exact Nat.mul_mod_mul_left _ _ _
  simp only [hq, hr]
  have e1 : (2 * (d * (b % 2 ^ e)) < d * 2 ^ e) ↔ (2 * (b % 2 ^ e) < 2 ^ e) := by
    rw [← Nat.mul_assoc, Nat.mul_comm 2 d, Nat.mul_assoc]
    exact Nat.mul_lt_mul_left hd
  have e2 : (d * 2 ^ e < 2 * (d * (b % 2 ^ e))) ↔ (2 ^ e < 2 * (b % 2 ^ e)) := by
    rw [← Nat.mul_assoc, Nat.mul_comm 2 d, Nat.mul_assoc]
    exact Nat.mul_lt_mul_left hd
  simp only [e1, e2]

/-- A rounded magnitude vanishes only when the exact one does (denominator 1). -/
theorem roundMag_pos {a : Nat} (ha : 0 < a) (hlt : a < 2 ^ 2098) : 0 < roundMag a 1 := by
  unfold roundMag
  simp only [Nat.div_one, Nat.one_mul]
  obtain ⟨hlb, -⟩ := ilog2Aux_spec 12 a (lt_trans hlt (by norm_num))
  generalize ilog2Aux 12 a = L at *
  have hL : 2 ^ L ≤ a := by rcases hlb with h | h; · omega
                            · exact h
  have h1 : 2 ^ (L - 52) ≤ a := le_trans (Nat.pow_le_pow_right (by norm_num) (by omega)) hL
  have h2 : 0 < a / 2 ^ (L - 52) := Nat.div_pos h1 (by positivity)
  exact Nat.mul_pos (lt_of_lt_of_le h2 (le_rne _ _)) (by positivity)

end F64

/-! ## The shape of a successful call -/

theorem invalidJson_ne_ret (p : F64) : invalidJson ≠ Outcome.ret p none := by
  unfold invalidJson; intro h; injection h with _ h2; cases h2

/-- A call that returns a nil error has passed every check of lines 73-111 and
returns what lines 113-142 compute. -/
theorem calculatePoints_ret_inv {r : Receipt} {p : F64}
    (h : calculatePoints (some r) = Outcome.ret p none) :
    ∃ retailer purchaseDate purchaseTime total items s0 s1 hh mm pDate,
      r.Retailer = some retailer ∧ r.PurchaseDate = some purchaseDate ∧
      r.PurchaseTime = some purchaseTime ∧ r.Total = some total ∧ r.Items = some items ∧
      strings.Split purchaseTime ':' = [s0, s1] ∧
      strconv.Atoi s0 = some hh ∧ 0 ≤ hh ∧ hh ≤ 23 ∧
      strconv.Atoi s1 = some mm ∧ 0 ≤ mm ∧ mm ≤ 59 ∧
      time.Parse purchaseDate = some pDate ∧ checkItems items = ItemCheck.pass ∧
      score retailer total items hh mm pDate = Outcome.ret p none := by
  obtain ⟨re, pd, pt, tot, its⟩ := r
  cases re with
  | none => exact absurd h (invalidJson_ne_ret p)
  | some retailer =>
  cases pd with
  | none => exact absurd h (invalidJson_ne_ret p)
  | some purchaseDate =>
  cases pt with
  | none => exact absurd h (invalidJson_ne_ret p)
  | some purchaseTime =>
  cases tot with
  | none => exact absurd h (invalidJson_ne_ret p)
  | some total =>
  cases its with
  | none => exact absurd h (invalidJson_ne_ret p)
  | some items =>
  simp only [calculatePoints] at h
  split at h
  · rename_i s0 s1 hs
    split at h
    · exact absurd h (invalidJson_ne_ret p)
    · rename_i hh h0
      split at h
      · exact absurd h (invalidJson_ne_ret p)
      · rename_i hhr
        split at h
        · exact absurd h (invalidJson_ne_ret p)
        · rename_i mm hm0
          split at h
          · exact absurd h (invalidJson_ne_ret p)
          · rename_i hmr
            split at h
            · exact absurd h (invalidJson_ne_ret p)
            · rename_i pDate hd
              split at h
              · cases h
              · exact absurd h (invalidJson_ne_ret p)
              · rename_i hc
                exact ⟨retailer, purchaseDate, purchaseTime, total, items, s0, s1, hh, mm,
                  pDate, rfl, rfl, rfl, rfl, rfl, hs, h0, by omega, by omega, hm0, by omega,
                  by omega, hd, hc, h⟩
  · exact absurd h (invalidJson_ne_ret p)

/-- The converse: a receipt that passes every check is scored. -/
theorem calculatePoints_of_valid {r : Receipt} {retailer purchaseDate purchaseTime : String}
    {total : F64} {items : List (Option Item)} {s0 s1 : String} {hh mm : Int} {pDate : Time}
    (h1 : r.Retailer = some retailer) (h2 : r.PurchaseDate = some purchaseDate)
    (h3 : r.PurchaseTime = some purchaseTime) (h4 : r.Total = some total)
    (h5 : r.Items = some items) (hs : strings.Split purchaseTime ':' = [s0, s1])
    (ha0 : strconv.Atoi s0 = some hh) (hh0 : 0 ≤ hh) (hh1 : hh ≤ 23)
    (ha1 : strconv.Atoi s1 = some mm) (hm0 : 0 ≤ mm) (hm1 : mm ≤ 59)
    (hd : time.Parse purchaseDate = some pDate) (hc : checkItems items = ItemCheck.pass) :
    calculatePoints (some r) = score retailer total items hh mm pDate := by
  obtain ⟨re, pd, pt, tot, its⟩ := r
  simp only at h1 h2 h3 h4 h5
  subst h1 h2 h3 h4 h5
  have e1 : ¬ (hh < 0 ∨ hh > 23) := by omega
  have e2 : ¬ (mm < 0 ∨ mm > 59) := by omega
  simp only [calculatePoints, hs, ha0, ha1, hd, hc, e1, e2, if_false]

/-- An item with a missing field stops the check of lines 107-111 with the
error, when no `nil` entry comes before it. -/
theorem checkItems_invalid (pre : List Item) (it : Item) (post : List (Option Item))
    (h : it.ShortDescription = none ∨ it.Price = none) :
    checkItems (pre.map some ++ some it :: post) = ItemCheck.invalid := by
  induction pre with
  | nil => simp only [List.map_nil, List.nil_append, checkItems, h, if_true]
  | cons a pre ih =>
    simp only [List.map_cons, List.cons_append, checkItems]
    split
    · rfl
    · exact ih

/-- Before the loop of lines 107-111 the only failure is the returned error. -/
theorem calculatePoints_invalid_of_check {r : Receipt} {items : List (Option Item)}
    (h5 : r.Items = some items) (hc : checkItems items = ItemCheck.invalid) :
    calculatePoints (some r) = invalidJson := by
  obtain ⟨re, pd, pt, tot, its⟩ := r
  simp only at h5
  subst h5
  cases re <;> cases pd <;> cases pt <;> cases tot <;>
    (simp only [calculatePoints, hc]; try ((repeat' split) <;> rfl))

/-! ## Signs -/

namespace F64

theorem ofInt_zero : ofInt 0 = fin 0 ⟨by norm_num, 0, 0, by norm_num, rfl⟩ := by decide

theorem nonNeg_fin (k : Int) (h : IsRep k.natAbs) : NonNeg (fin k h) ↔ 0 ≤ k := by
  unfold NonNeg; rw [ofInt_zero]; simp only [le, decide_eq_true_eq]

theorem nonNeg_inf (s : Bool) : NonNeg (inf s) ↔ s = false := by
  unfold NonNeg; rw [ofInt_zero]; cases s <;> simp [le]

theorem not_nonNeg_nan : ¬ NonNeg nan := by
  unfold NonNeg; rw [ofInt_zero]; simp [le]

theorem nonNeg_round {n : Int} (hn : 0 ≤ n) (d : Nat) : NonNeg (round n d) := by
  have hneg : decide (n < 0) = false := by simp only [decide_eq_false_iff_not]; omega
  unfold round
  split
  · split
    · rw [nonNeg_fin, hneg]; simp only [signed, Bool.false_eq_true, if_false]; omega
    · rw [nonNeg_inf]; exact hneg
  · rw [nonNeg_inf]; exact hneg

theorem nonNeg_ofInt {n : Int} (hn : 0 ≤ n) : NonNeg (ofInt n) :=
  nonNeg_round (Int.mul_nonneg hn (Int.ofNat_nonneg _)) 1

theorem nonNeg_ofRat {n : Int} (hn : 0 ≤ n) (d : Nat) : NonNeg (ofRat n d) :=
  nonNeg_round (Int.mul_nonneg hn (Int.ofNat_nonneg _)) d

theorem NonNeg.add {x y : F64} (hx : NonNeg x) (hy : NonNeg y) : NonNeg (x.add y) := by
  cases x with
  | nan => exact absurd hx not_nonNeg_nan
  | inf s =>
    rw [nonNeg_inf] at hx; subst hx
    cases y with
    | nan => exact absurd hy not_nonNeg_nan
    | inf t => rw [nonNeg_inf] at hy; subst hy; simp only [F64.add, if_true]; rw [nonNeg_inf]
    | fin b hb => simp only [F64.add]; rw [nonNeg_inf]
  | fin a ha =>
    rw [nonNeg_fin] at hx
    cases y with
    | nan => exact absurd hy not_nonNeg_nan
    | inf t => rw [nonNeg_inf] at hy; subst hy; simp only [F64.add]; rw [nonNeg_inf]
    | fin b hb =>
      rw [nonNeg_fin] at hy
      simp only [F64.add]
      exact nonNeg_round (by omega) 1

theorem NonNeg.mul {x y : F64} (hx : NonNeg x) (hy : NonNeg y)
    (hy0 : y ≠ fin 0 ⟨by norm_num, 0, 0, by norm_num, rfl⟩)
    (hx0 : x ≠ fin 0 ⟨by norm_num, 0, 0, by norm_num, rfl⟩ ∨ ∃ b hb, y = fin b hb) :
    NonNeg (x.mul y) := by
  cases x with
  | nan => exact absurd hx not_nonNeg_nan
  | inf s =>
    rw [nonNeg_inf] at hx; subst hx
    cases y with
    | nan => exact absurd hy not_nonNeg_nan
    | inf t => rw [nonNeg_inf] at hy; subst hy; simp only [F64.mul]; rw [nonNeg_inf]; rfl
    | fin b hb =>
      rw [nonNeg_fin] at hy
      have hb0 : b ≠ 0 := by rintro rfl; exact hy0 rfl
      have hb1 : ¬ b < 0 := by omega
      simp only [F64.mul, hb0, if_false, hb1, decide_False]; rw [nonNeg_inf]; rfl
  | fin a ha =>
    rw [nonNeg_fin] at hx
    cases y with
    | nan => exact absurd hy not_nonNeg_nan
    | inf t =>
      rcases hx0 with hx0 | ⟨b, hb, hyb⟩
      · rw [nonNeg_inf] at hy; subst hy
        have ha0 : a ≠ 0 := by rintro rfl; exact hx0 rfl
        have ha1 : ¬ a < 0 := by omega
        simp only [F64.mul, ha0, if_false, ha1, decide_False]; rw [nonNeg_inf]; rfl
      · cases hyb
    | fin b hb =>
      rw [nonNeg_fin] at hy
      simp only [F64.mul]
      exact nonNeg_round (Int.mul_nonneg hx hy) _

theorem NonNeg.ceil {x : F64} (hx : NonNeg x) : NonNeg x.ceil := by
  cases x with
  | nan => exact absurd hx not_nonNeg_nan
  | inf s => exact hx
  | fin a ha =>
    rw [nonNeg_fin] at hx
    simp only [F64.ceil, hx, if_true]
    rw [nonNeg_fin]; exact Int.ofNat_nonneg _

/-- The constant `0.2` as a binary64. -/
theorem ofRat_two_tenths :
    ofRat 2 10 = fin (((3602879701896397 * 2 ^ 1020 : Nat) : Int))
      ⟨by norm_num, 3602879701896397, 1020, by norm_num, rfl⟩ := by decide

theorem NonNeg.mul_two_tenths {x : F64} (hx : NonNeg x) : NonNeg (x.mul (ofRat 2 10)) := by
  refine NonNeg.mul hx (nonNeg_ofRat (by norm_num) 10) ?_ (Or.inr ⟨_, _, ofRat_two_tenths⟩)
  rw [ofRat_two_tenths]
  intro h
  injection h with h
  revert h
  decide

end F64

theorem addRetailer_nonNeg (retailer : String) {p : F64} (hp : p.NonNeg) :
    (addRetailer retailer p).NonNeg :=
  hp.add (F64.nonNeg_ofInt (Int.ofNat_nonneg _))

theorem addRoundDollar_nonNeg (total : F64) {p : F64} (hp : p.NonNeg) :
    (addRoundDollar total p).NonNeg := by
  unfold addRoundDollar; split
  · exact hp.add (F64.nonNeg_ofInt (by norm_num))
  · exact hp

theorem addQuarter_nonNeg (total : F64) {p : F64} (hp : p.NonNeg) :
    (addQuarter total p).NonNeg := by
  unfold addQuarter; split
  · exact hp.add (F64.nonNeg_ofInt (by norm_num))
  · exact hp

theorem ofInt_five : F64.ofInt 5 = F64.fin (((5 * 2 ^ 1074 : Nat) : Int))
    ⟨by norm_num, 5, 1074, by norm_num, rfl⟩ := by decide

theorem addPairs_nonNeg (n : Nat) {p : F64} (hp : p.NonNeg) : (addPairs n p).NonNeg := by
  unfold addPairs
  refine hp.add (F64.NonNeg.mul (F64.nonNeg_ofInt (Int.ofNat_nonneg _))
    (F64.nonNeg_ofInt (by norm_num)) ?_ (Or.inr ⟨_, _, ofInt_five⟩))
  rw [ofInt_five]
  intro h
  injection h with h
  revert h
  decide

theorem addAfternoon_nonNeg (h m : Int) {p : F64} (hp : p.NonNeg) :
    (addAfternoon h m p).NonNeg := by
  unfold addAfternoon; split
  · exact hp.add (F64.nonNeg_ofInt (by norm_num))
  · exact hp

theorem addOddDay_nonNeg (pDate : Time) {p : F64} (hp : p.NonNeg) :
    (addOddDay pDate p).NonNeg := by
  unfold addOddDay; split
  · exact hp.add (F64.nonNeg_ofInt (by norm_num))
  · exact hp

theorem addItems_nonNeg (items : List (Option Item))
    (hprice : ∀ it, some it ∈ items → ∀ price, it.Price = some price → price.NonNeg)
    {p q : F64} (hp : p.NonNeg) (h : addItems items p = some q) : q.NonNeg := by
  induction items generalizing p with
  | nil => simp only [addItems, Option.some.injEq] at h; subst h; exact hp
  | cons e rest ih =>
    have hrest : ∀ it, some it ∈ rest → ∀ price, it.Price = some price → price.NonNeg :=
      fun it hit => hprice it (List.mem_cons_of_mem _ hit)
    cases e with
    | none => simp only [addItems] at h; cases h
    | some it =>
      obtain ⟨d, pr⟩ := it
      cases d with
      | none => simp only [addItems] at h; cases h
      | some d =>
        simp only [addItems] at h
        split at h
        · cases pr with
          | none => simp only at h; cases h
          | some price =>
            simp only at h
            have hpr : price.NonNeg := hprice ⟨some d, some price⟩ (List.mem_cons_self _ _) price rfl
            exact ih hrest (hp.add hpr.mul_two_tenths.ceil) h
        · exact ih hrest hp h

/-! ## The purchase time -/

theorem isDigit_eq (c : Char) : isDigit c = c.isDigit := by
  unfold isDigit Char.isDigit
  rw [Bool.eq_iff_iff]
  simp only [decide_eq_true_eq, Bool.and_eq_true, ge_iff_le, UInt32.le_def, Char.toNat]
  exact Iff.rfl

namespace strings

theorem splitChars_ne_nil (sep : Char) (cs : List Char) : splitChars sep cs ≠ [] := by
  cases cs with
  | nil => simp [splitChars]
  | cons c cs =>
    simp only [splitChars]
    split
    · simp
    · split <;> simp

theorem splitChars_one (sep : Char) (cs b : List Char) (h : splitChars sep cs = [b]) :
    cs = b ∧ sep ∉ b := by
  induction cs generalizing b with
  | nil =>
    simp only [splitChars, List.cons.injEq, and_true] at h
    subst h; exact ⟨rfl, List.not_mem_nil _⟩
  | cons c cs ih =>
    simp only [splitChars] at h
    split at h
    · simp only [List.cons.injEq] at h
      exact absurd h.2 (splitChars_ne_nil sep cs)
    · rename_i hne
      split at h
      · rename_i hnil
        exact absurd hnil (splitChars_ne_nil sep cs)
      · rename_i p ps hp
        simp only [List.cons.injEq] at h
        obtain ⟨rfl, rfl⟩ := h
        obtain ⟨rfl, hmem⟩ := ih p hp
        refine ⟨rfl, ?_⟩
        intro hm
        rcases List.mem_cons.1 hm with hm | hm
        · exact hne hm.symm
        · exact hmem hm

theorem splitChars_two (sep : Char) (cs a b : List Char) (h : splitChars sep cs = [a, b]) :
    cs = a ++ sep :: b ∧ sep ∉ a ∧ sep ∉ b := by
  induction cs generalizing a with
  | nil => simp [splitChars] at h
  | cons c cs ih =>
    simp only [splitChars] at h
    split at h
    · rename_i hc
      simp only [List.cons.injEq] at h
      obtain ⟨rfl, h⟩ := h
      obtain ⟨rfl, hmem⟩ := splitChars_one sep cs b h
      subst hc
      exact ⟨rfl, List.not_mem_nil _, hmem⟩
    · rename_i hne
      split at h
      · simp at h
      · rename_i p ps hp
        simp only [List.cons.injEq] at h
        obtain ⟨rfl, rfl⟩ := h
        obtain ⟨rfl, hp1, hp2⟩ := ih p hp
        refine ⟨rfl, ?_, hp2⟩
        intro hm
        rcases List.mem_cons.1 hm with hm | hm
        · exact hne hm.symm
        · exact hp1 hm

/-- Two parts of `strings.Split` are the text before and after the only
separator. -/
theorem Split_two (t : String) (sep : Char) (s0 s1 : String) (h : Split t sep = [s0, s1]) :
    t.data = s0.data ++ sep :: s1.data ∧ sep ∉ s0.data ∧ sep ∉ s1.data := by
  unfold Split at h
  match hsp : splitChars sep t.data, h with
  | [a, b], h =>
    simp only [List.map_cons, List.map_nil, List.cons.injEq, and_true] at h
    obtain ⟨rfl, rfl⟩ := h
    exact splitChars_two sep t.data a b hsp
  | [], h => simp at h
  | [_], h => simp at h
  | _ :: _ :: _ :: _, h => simp at h

end strings

namespace strconv

theorem digitsVal_foldl (ds : List Char) (n : Nat) :
    ds.foldl (fun n c => n * 10 + (c.toNat - '0'.toNat)) n =
      n * 10 ^ ds.length + decimalValue ds := by
  induction ds generalizing n with
  | nil => simp [decimalValue]
  | cons c ds ih =>
    rw [List.foldl_cons, ih]
    unfold decimalValue
    simp only [List.reverse_cons, List.map_append, List.map_cons, List.map_nil,
      Nat.ofDigits_append, Nat.ofDigits_singleton, List.length_map, List.length_reverse,
      List.length_cons]
    have h48 : '0'.toNat = 48 := by decide
    rw [h48]
    ring

theorem digitsVal_eq (ds : List Char) : digitsVal ds = decimalValue ds := by
  unfold digitsVal
  rw [digitsVal_foldl]; simp

/-- What `Atoi` accepts is a decimal integer, and the value is the one it
denotes. -/
theorem some_of_ite {α : Type} (c : Prop) [Decidable c] (a b : α)
    (h : (if c then some a else none) = some b) : a = b := by
  by_cases hc : c
  · rw [if_pos hc] at h; exact Option.some.inj h
  · rw [if_neg hc] at h; cases h

theorem Atoi_some (s : String) (v : Int) (h : Atoi s = some v) : IsDecimalInteger s v := by
  unfold Atoi at h
  split at h
  · cases h
  · rename_i c rest hs
    simp only at h
    generalize hds : (if c = '-' ∨ c = '+' then rest else c :: rest) = ds at h
    by_cases hne : ds = []
    · rw [if_pos hne] at h; cases h
    · rw [if_neg hne] at h
      by_cases hall : ds.all isDigit = true
      · rw [if_pos hall] at h
        replace h := some_of_ite _ _ _ h
        · have hdig : ∀ x ∈ ds, x.isDigit = true := by
            intro x hx
            rw [← isDigit_eq]
            exact List.all_eq_true.1 hall x hx
          refine ⟨ds, hne, hdig, ?_⟩
          by_cases hm : c = '-'
          · subst hm
            simp only [true_or, if_true] at hds
            subst hds
            simp only [decide_True, if_true] at h
            exact Or.inr (Or.inr ⟨hs, by rw [← h, digitsVal_eq]⟩)
          · simp only [hm, decide_False, Bool.false_eq_true, if_false] at h
            by_cases hp : c = '+'
            · subst hp
              simp only [or_true, if_true] at hds
              subst hds
              exact Or.inr (Or.inl ⟨hs, by rw [← h, digitsVal_eq]⟩)
            · simp only [hm, hp, or_self, if_false] at hds
              subst hds
              exact Or.inl ⟨hs, by rw [← h, digitsVal_eq]⟩
      · rw [if_neg hall] at h; cases h

end strconv

/-- Every call that gets as far as line 101 returns the error or has parsed
the time as lines 79-97 do; if it gets past line 104 it has parsed the date. -/
theorem calculatePoints_checks (r : Receipt) :
    calculatePoints (some r) = invalidJson ∨
      ∃ t d s0 s1 hh mm pDate, r.PurchaseTime = some t ∧ r.PurchaseDate = some d ∧
        strings.Split t ':' = [s0, s1] ∧ strconv.Atoi s0 = some hh ∧
        0 ≤ hh ∧ hh ≤ 23 ∧ strconv.Atoi s1 = some mm ∧ 0 ≤ mm ∧ mm ≤ 59 ∧
        time.Parse d = some pDate := by
  obtain ⟨re, pd, pt, tot, its⟩ := r
  cases re with
  | none => exact Or.inl rfl
  | some retailer =>
  cases pd with
  | none => exact Or.inl rfl
  | some purchaseDate =>
  cases pt with
  | none => exact Or.inl rfl
  | some purchaseTime =>
  cases tot with
  | none => exact Or.inl rfl
  | some total =>
  cases its with
  | none => exact Or.inl rfl
  | some items =>
  simp only [calculatePoints]
  split
  · rename_i s0 s1 hs
    split
    · exact Or.inl rfl
    · rename_i hh h0
      split
      · exact Or.inl rfl
      · rename_i hhr
        split
        · exact Or.inl rfl
        · rename_i mm hm0
          split
          · exact Or.inl rfl
          · rename_i hmr
            split
            · exact Or.inl rfl
            · rename_i pDate hd
              exact Or.inr ⟨purchaseTime, purchaseDate, s0, s1, hh, mm, pDate, rfl, rfl, hs,
                h0, by omega, by omega, hm0, by omega, by omega, hd⟩
  · exact Or.inl rfl

/-- A purchase time that passes lines 79-97 is a valid time of C4. -/
theorem validTime_of_parsed (t s0 s1 : String) (hh mm : Int)
    (hs : strings.Split t ':' = [s0, s1]) (h0 : strconv.Atoi s0 = some hh)
    (hh0 : 0 ≤ hh) (hh1 : hh ≤ 23) (h1 : strconv.Atoi s1 = some mm)
    (hm0 : 0 ≤ mm) (hm1 : mm ≤ 59) : ValidTime t := by
  obtain ⟨e, n0, n1⟩ := strings.Split_two t ':' s0 s1 hs
  exact ⟨s0, s1, hh, mm, e, n0, n1, strconv.Atoi_some s0 hh h0, strconv.Atoi_some s1 mm h1,
    hh0, hh1, hm0, hm1⟩

/-! ## The purchase date -/

theorem digitChar_of_isDigit (c : Char) (h : isDigit c = true) :
    digitChar (c.toNat - 48) = c ∧ c.toNat - 48 ≤ 9 := by
  unfold isDigit at h
  have h48 : '0'.toNat = 48 := rfl
  have h57 : '9'.toNat = 57 := rfl
  rw [h48, h57, decide_eq_true_eq] at h
  refine ⟨?_, by omega⟩
  unfold digitChar
  have e : 48 + (c.toNat - 48) = c.toNat := by omega
  rw [e]
  exact Char.ofNat_toNat c

theorem daysIn_eq (year month : Nat) (h1 : 1 ≤ month) (h12 : month ≤ 12) :
    time.daysIn month year = daysInMonth year month := by
  have hleap : (time.isLeap year = true) ↔ ((4 ∣ year ∧ ¬ 100 ∣ year) ∨ 400 ∣ year) := by
    unfold time.isLeap
    simp only [Bool.and_eq_true, Bool.or_eq_true, beq_iff_eq, bne_iff_ne, ne_eq,
      Nat.dvd_iff_mod_eq_zero]
    omega
  unfold time.daysIn daysInMonth
  interval_cases month <;> simp only [hleap] <;> simp

/-- A date that `time.Parse` accepts is a calendar date written `YYYY-MM-DD`. -/
theorem validDate_of_parsed (d : String) (t : Time) (h : time.Parse d = some t) :
    ValidDate d := by
  unfold time.Parse at h
  split at h
  · rename_i y1 y2 y3 y4 s1 m1 m2 s2 d1 d2 hd
    split at h
    · rename_i hc
      obtain ⟨hall, hs1, hs2⟩ := hc
      subst hs1 hs2
      simp only [List.all_cons, List.all_nil, Bool.and_true, Bool.and_eq_true] at hall
      obtain ⟨hy1, hy2, hy3, hy4, hm1, hm2, hd1, hd2⟩ := hall
      simp only at h
      split at h
      · cases h
      · rename_i hmonth
        split at h
        · cases h
        · rename_i hday
          obtain ⟨ey1, by1⟩ := digitChar_of_isDigit y1 hy1
          obtain ⟨ey2, by2⟩ := digitChar_of_isDigit y2 hy2
          obtain ⟨ey3, by3⟩ := digitChar_of_isDigit y3 hy3
          obtain ⟨ey4, by4⟩ := digitChar_of_isDigit y4 hy4
          obtain ⟨em1, bm1⟩ := digitChar_of_isDigit m1 hm1
          obtain ⟨em2, bm2⟩ := digitChar_of_isDigit m2 hm2
          obtain ⟨ed1, bd1⟩ := digitChar_of_isDigit d1 hd1
          obtain ⟨ed2, bd2⟩ := digitChar_of_isDigit d2 hd2
          have h48 : '0'.toNat = 48 := rfl
          simp only [strconv.digitsVal, List.foldl_cons, List.foldl_nil, h48, Nat.zero_mul,
            Nat.zero_add] at hmonth hday
          generalize y1.toNat - 48 = a1 at *
          generalize y2.toNat - 48 = a2 at *
          generalize y3.toNat - 48 = a3 at *
          generalize y4.toNat - 48 = a4 at *
          generalize m1.toNat - 48 = b1 at *
          generalize m2.toNat - 48 = b2 at *
          generalize d1.toNat - 48 = c1 at *
          generalize d2.toNat - 48 = c2 at *
          refine ⟨((a1 * 10 + a2) * 10 + a3) * 10 + a4, b1 * 10 + b2, c1 * 10 + c2,
            by omega, by omega, by omega, by omega, ?_, ?_⟩
          · rw [← daysIn_eq _ _ (by omega) (by omega)]; omega
          · rw [hd]
            have q1 : (((a1 * 10 + a2) * 10 + a3) * 10 + a4) / 1000 = a1 := by omega
            have q2 : (((a1 * 10 + a2) * 10 + a3) * 10 + a4) / 100 % 10 = a2 := by omega
            have q3 : (((a1 * 10 + a2) * 10 + a3) * 10 + a4) / 10 % 10 = a3 := by omega
            have q4 : (((a1 * 10 + a2) * 10 + a3) * 10 + a4) % 10 = a4 := by omega
            have q5 : (b1 * 10 + b2) / 10 = b1 := by omega
            have q6 : (b1 * 10 + b2) % 10 = b2 := by omega
            have q7 : (c1 * 10 + c2) / 10 = c1 := by omega
            have q8 : (c1 * 10 + c2) % 10 = c2 := by omega
            rw [q1, q2, q3, q4, q5, q6, q7, q8, ey1, ey2, ey3, ey4, em1, em2, ed1, ed2]
    · cases h
  · cases h

/-! ## The two tests on the total -/

namespace F64

theorem floorMag_eq_iff (a : Nat) : floorMag a = a ↔ 2 ^ 1074 ∣ a := by
  unfold floorMag
  constructor
  · intro h; exact ⟨a / 2 ^ 1074, by rw [Nat.mul_comm]; exact h.symm⟩
  · intro h; exact Nat.div_mul_cancel h

theorem ceilMag_eq_iff (a : Nat) : ceilMag a = a ↔ 2 ^ 1074 ∣ a := by
  unfold ceilMag
  constructor
  · intro h; exact ⟨(a + (2 ^ 1074 - 1)) / 2 ^ 1074, by rw [Nat.mul_comm]; exact h.symm⟩
  · rintro ⟨c, rfl⟩
    have e : (2 ^ 1074 * c + (2 ^ 1074 - 1)) / 2 ^ 1074 = c := by
      rw [Nat.add_comm, Nat.add_mul_div_left _ _ (by positivity),
        Nat.div_eq_of_lt (by norm_num), Nat.zero_add]
    rw [e, Nat.mul_comm]

theorem signed_eq_zero (s : Bool) (a : Nat) : signed s a = 0 ↔ a = 0 := by
  cases s <;> simp [signed]

/-- A rounded difference is `== 0` exactly when the difference is zero. -/
theorem round_eq_zero (n : Int) : (round n 1).eq (ofInt 0) = decide (n = 0) := by
  rw [ofInt_zero]
  by_cases hn : n = 0
  · subst hn; decide
  · rw [decide_eq_false hn]
    unfold round
    split
    · rename_i h1
      split
      · simp only [eq, decide_eq_false_iff_not, signed_eq_zero]
        rw [Nat.div_one] at h1
        exact Nat.pos_iff_ne_zero.1 (roundMag_pos (by omega) h1)
      · rfl
    · rfl

theorem natAbs_dvd_iff (k : Int) (u : Nat) : u ∣ k.natAbs ↔ (u : Int) ∣ k := by
  rw [Int.natCast_dvd]

/-- The test of line 118 holds exactly for the whole numbers. -/
theorem sub_floor_eq_zero (x : F64) : (x.sub x.floor).eq (ofInt 0) = x.isWhole := by
  cases x with
  | nan => rw [ofInt_zero]; rfl
  | inf s => rw [ofInt_zero]; cases s <;> rfl
  | fin k h =>
    unfold sub floor isWhole
    by_cases hk : 0 ≤ k
    · simp only [hk, if_true, neg, add]
      rw [round_eq_zero, decide_eq_decide, ← natAbs_dvd_iff, ← floorMag_eq_iff]
      constructor <;> intro h' <;> omega
    · simp only [hk, if_false, neg, add]
      rw [round_eq_zero, decide_eq_decide, ← natAbs_dvd_iff, ← ceilMag_eq_iff]
      constructor <;> intro h' <;> omega

theorem ofRat_quarter :
    ofRat 1 4 = fin (((2 ^ 1072 : Nat) : Int)) ⟨by norm_num, 1, 1072, by norm_num, by norm_num⟩ := by
  decide

theorem isRep_four_mul {a : Nat} (h : IsRep a) (hlt : a < 2 ^ 2096) : IsRep (4 * a) := by
  obtain ⟨-, m, e, hm, rfl⟩ := h
  exact ⟨by omega, m, e + 2, hm, by rw [pow_add]; ring⟩

theorem round_fin {n : Int} {d : Nat} {k : Int} (hk : IsRep k.natAbs)
    (h1 : n.natAbs / d < 2 ^ 2098)
    (hm : signed (decide (n < 0)) (roundMag n.natAbs d) = k) : round n d = fin k hk := by
  have h2 : roundMag n.natAbs d < 2 ^ 2098 := by
    have h3 := hk.1
    rw [← hm, natAbs_signed] at h3
    exact h3
  unfold round
  rw [dif_pos h1, dif_pos h2]
  subst hm
  rfl

theorem round_inf {n : Int} {d : Nat} (h1 : ¬ n.natAbs / d < 2 ^ 2098) :
    round n d = inf (decide (n < 0)) := by
  unfold round
  rw [dif_neg h1]

/-- Dividing by `0.25` multiplies by four, or overflows. -/
theorem div_quarter (k : Int) (h : IsRep k.natAbs) :
    (fin k h).div (ofRat 1 4) =
      if hlt : k.natAbs < 2 ^ 2096 then
        fin (4 * k) (by rw [Int.natAbs_mul]; exact isRep_four_mul h hlt)
      else inf (decide (k < 0)) := by
  rw [ofRat_quarter]
  have hq : (((2 ^ 1072 : Nat) : Int)) ≠ 0 := by norm_num
  have hsign : (((2 ^ 1072 : Nat) : Int)).sign = 1 := Int.sign_eq_one_of_pos (by norm_num)
  simp only [div, hq, if_false, hsign, Int.mul_one, Int.natAbs_ofNat]
  have habs : (k * ((2 ^ 1074 : Nat) : Int)).natAbs = 4 * k.natAbs * 2 ^ 1072 := by
    rw [Int.natAbs_mul, Int.natAbs_ofNat]
    have : (2:Nat) ^ 1074 = 4 * 2 ^ 1072 := by norm_num
    rw [this]; ring
  have hneg : decide (k * ((2 ^ 1074 : Nat) : Int) < 0) = decide (k < 0) := by
    rw [decide_eq_decide]
    constructor
    · intro h'
      by_contra hc
      exact absurd (Int.mul_nonneg (not_lt.1 hc) (Int.ofNat_nonneg (2 ^ 1074))) (not_le.2 h')
    · intro h'
      exact Int.mul_neg_of_neg_of_pos h' (by norm_num)
  have hdiv : (k * ((2 ^ 1074 : Nat) : Int)).natAbs / 2 ^ 1072 = 4 * k.natAbs := by
    rw [habs, Nat.mul_div_cancel _ (by positivity)]
  by_cases hlt : k.natAbs < 2 ^ 2096
  · rw [dif_pos hlt]
    apply round_fin
    · rw [hdiv]; omega
    · rw [hneg, habs, roundMag_mul_right _ _ (by positivity),
        roundMag_rep (isRep_four_mul h hlt)]
      have hs := signed_natAbs k
      unfold signed at hs ⊢
      split <;> rename_i hs' <;> simp only [hs', if_true, if_false, Bool.false_eq_true] at hs <;>
        omega
  · rw [dif_neg hlt, ← hneg]
    apply round_inf
    rw [hdiv]; omega

/-- The test of line 122 holds exactly for the multiples of `0.25` of
magnitude below `2^1022`. -/
theorem quarter_test (x : F64) :
    ((x.div (ofRat 1 4)).sub (x.div (ofRat 1 4)).floor).eq (ofInt 0) =
      (x.isQuarterMultiple && !x.isHuge) := by
  rw [sub_floor_eq_zero]
  cases x with
  | nan => rw [ofRat_quarter]; rfl
  | inf s => rw [ofRat_quarter]; rfl
  | fin k h =>
    rw [div_quarter]
    unfold isQuarterMultiple isHuge
    by_cases hlt : k.natAbs < 2 ^ 2096
    · have hge : ¬ 2 ^ 2096 ≤ k.natAbs := by omega
      rw [dif_pos hlt]
      simp only [isWhole, hge, decide_False, Bool.not_false, Bool.and_true]
      congr 1
      apply propext
      have e : (((2 ^ 1074 : Nat) : Int)) = 4 * ((2 ^ 1072 : Nat) : Int) := by norm_num
      rw [e]
      exact mul_dvd_mul_iff_left (by norm_num)
    · have hge : 2 ^ 2096 ≤ k.natAbs := by omega
      rw [dif_neg hlt]
      simp only [isWhole, hge, decide_True, Bool.not_true, Bool.and_false]

theorem isRep_nat_mul (n : Nat) (hn : n < 2 ^ 53) : IsRep (n * 2 ^ 1074) :=
  ⟨lt_of_lt_of_le (Nat.mul_lt_mul_of_pos_right hn (by positivity)) (by norm_num),
    n, 1074, hn, rfl⟩

/-- The conversion of an integer below `2^53` is exact. -/
theorem ofInt_nat (n : Nat) (hn : n < 2 ^ 53) :
    ofInt (n : Int) = fin (((n * 2 ^ 1074 : Nat) : Int))
      (by rw [Int.natAbs_ofNat]; exact isRep_nat_mul n hn) := by
  unfold ofInt
  have e : (n : Int) * ((2 ^ 1074 : Nat) : Int) = ((n * 2 ^ 1074 : Nat) : Int) :=
    (Int.ofNat_mul n (2 ^ 1074)).symm
  rw [e]
  exact round_rep _ _

/-- Adding two integers below `2^53` rounds their exact sum. -/
theorem add_ofInt_nat (n c : Nat) (hn : n < 2 ^ 53) (hc : c < 2 ^ 53) :
    (ofInt (n : Int)).add (ofInt (c : Int)) = ofInt ((n + c : Nat) : Int) := by
  have e : ((n * 2 ^ 1074 : Nat) : Int) + ((c * 2 ^ 1074 : Nat) : Int) =
      ((n + c : Nat) : Int) * ((2 ^ 1074 : Nat) : Int) := by
    generalize (2 ^ 1074 : Nat) = u
    push_cast
    ring
  rw [ofInt_nat n hn, ofInt_nat c hc]
  simp only [add]
  rw [e]
  rfl

end F64

/-! ## The total, the items and the retailer -/

theorem F64.isQuarterMultiple_of_isWhole {x : F64} (h : x.isWhole = true) :
    x.isQuarterMultiple = true := by
  cases x with
  | nan => cases h
  | inf s => cases h
  | fin k hk =>
    simp only [F64.isWhole, decide_eq_true_eq] at h
    simp only [F64.isQuarterMultiple, decide_eq_true_eq]
    have e : (((2 ^ 1074 : Nat) : Int)) = ((2 ^ 1072 : Nat) : Int) * 4 := by norm_num
    rw [e] at h
    exact dvd_of_mul_right_dvd h

theorem F64.isWhole_of_isHuge {x : F64} (h : x.isHuge = true) : x.isWhole = true := by
  cases x with
  | nan => cases h
  | inf s => cases h
  | fin k hk =>
    simp only [F64.isHuge, decide_eq_true_eq] at h
    simp only [F64.isWhole, decide_eq_true_eq]
    rw [← F64.natAbs_dvd_iff]
    have hbig : 2 ^ 53 * 2 ^ 1074 ≤ k.natAbs := le_trans (by norm_num) h
    exact ⟨k.natAbs / 2 ^ 1074, by rw [Nat.mul_comm]; exact (hk.dvd_of_le hbig).symm⟩

theorem utf8Len_eq (c : Char) : utf8Len c = c.utf8Size := by
  have k1 : (c.val ≤ UInt32.ofNatCore 127 (by decide)) ↔ c.toNat ≤ 127 := Iff.rfl
  have k2 : (c.val ≤ UInt32.ofNatCore 2047 (by decide)) ↔ c.toNat ≤ 2047 := Iff.rfl
  have k3 : (c.val ≤ UInt32.ofNatCore 65535 (by decide)) ↔ c.toNat ≤ 65535 := Iff.rfl
  unfold utf8Len Char.utf8Size
  simp only [k1, k2, k3]
  split_ifs <;> omega

/-- The program's `len` is the size of the UTF-8 encoding. -/
theorem len_eq_utf8ByteSize (s : String) : len s = s.utf8ByteSize := by
  obtain ⟨cs⟩ := s
  unfold len
  simp only [String.utf8ByteSize]
  induction cs with
  | nil => rfl
  | cons c cs ih =>
    simp only [List.map_cons, List.sum_cons, String.utf8ByteSize.go, ih, utf8Len_eq]
    omega

/-- On ASCII text the number of bytes is the number of characters. -/
theorem len_eq_length_of_ascii (s : String) (h : ∀ c ∈ s.data, c.toNat < 128) :
    len s = s.length := by
  obtain ⟨cs⟩ := s
  unfold len
  simp only [String.length]
  induction cs with
  | nil => rfl
  | cons c cs ih =>
    have hc : c.toNat < 128 := h c (List.mem_cons_self _ _)
    have hu : utf8Len c = 1 := by unfold utf8Len; rw [if_pos hc]
    simp only [List.map_cons, List.sum_cons, List.length_cons, hu,
      ih (fun x hx => h x (List.mem_cons_of_mem _ hx))]
    omega

theorem isAlnum_lt (c : Char) (hc : isAlnum c = true) : c.toNat < 128 := by
  unfold isAlnum isDigit at hc
  have ha : 'a'.toNat = 97 := rfl
  have hz : 'z'.toNat = 122 := rfl
  have hA : 'A'.toNat = 65 := rfl
  have hZ : 'Z'.toNat = 90 := rfl
  have h0 : '0'.toNat = 48 := rfl
  have h9 : '9'.toNat = 57 := rfl
  simp only [ha, hz, hA, hZ, h0, h9, Bool.or_eq_true, decide_eq_true_eq] at hc
  omega

theorem isAlnum_eq (c : Char) : isAlnum c = c.isAlphanum := by
  unfold isAlnum Char.isAlphanum Char.isAlpha Char.isUpper Char.isLower
  rw [isDigit_eq]
  unfold Char.isDigit
  rw [Bool.eq_iff_iff]
  simp only [decide_eq_true_eq, Bool.and_eq_true, Bool.or_eq_true, ge_iff_le, UInt32.le_def,
    Char.toNat]
  have ha : 'a'.val.toNat = 97 := rfl
  have hz : 'z'.val.toNat = 122 := rfl
  have hA : 'A'.val.toNat = 65 := rfl
  have hZ : 'Z'.val.toNat = 90 := rfl
  simp only [ha, hz, hA, hZ]
  have e1 : ∀ n : Nat, n < 4294967296 → ∀ c : Char,
      ((UInt32.ofNat n).val ≤ c.val.val ↔ n ≤ c.val.toNat) := by
    intro n hn c
    rw [Fin.le_def]
    have : ((UInt32.ofNat n).val : Nat) = n := Nat.mod_eq_of_lt hn
    rw [this]; rfl
  have e2 : ∀ n : Nat, n < 4294967296 → ∀ c : Char,
      (c.val.val ≤ (UInt32.ofNat n).val ↔ c.val.toNat ≤ n) := by
    intro n hn c
    rw [Fin.le_def]
    have : ((UInt32.ofNat n).val : Nat) = n := Nat.mod_eq_of_lt hn
    rw [this]; rfl
  have f1 := e1 65 (by norm_num) c
  have f2 := e2 90 (by norm_num) c
  have f3 := e1 97 (by norm_num) c
  have f4 := e2 122 (by norm_num) c
  have f5 := e1 48 (by norm_num) c
  have f6 := e2 57 (by norm_num) c
  constructor
  · rintro ((h | h) | h)
    · exact Or.inl (Or.inr ⟨f3.2 h.1, f4.2 h.2⟩)
    · exact Or.inl (Or.inl ⟨f1.2 h.1, f2.2 h.2⟩)
    · exact Or.inr ⟨f5.2 h.1, f6.2 h.2⟩
  · rintro ((h | h) | h)
    · exact Or.inl (Or.inr ⟨f1.1 h.1, f2.1 h.2⟩)
    · exact Or.inl (Or.inl ⟨f3.1 h.1, f4.1 h.2⟩)
    · exact Or.inr ⟨f5.1 h.1, f6.1 h.2⟩

/-- The text left by the regular expression has one byte per character. -/
theorem len_filter_isAlnum (cs : List Char) :
    ((cs.filter isAlnum).map utf8Len).sum = cs.countP Char.isAlphanum := by
  induction cs with
  | nil => rfl
  | cons c cs ih =>
    by_cases hc : isAlnum c = true
    · have hc' : c.isAlphanum = true := by rw [← isAlnum_eq]; exact hc
      have hu : utf8Len c = 1 := by unfold utf8Len; rw [if_pos (isAlnum_lt c hc)]
      rw [List.filter_cons_of_pos hc, List.countP_cons_of_pos _ _ hc', List.map_cons,
        List.sum_cons, ih, hu]
      omega
    · have hc' : ¬ c.isAlphanum = true := by rw [← isAlnum_eq]; exact hc
      rw [List.filter_cons_of_neg hc, List.countP_cons_of_neg _ _ hc', ih]

theorem F64.zero_add_ofInt (n : Int) : (F64.ofInt 0).add (F64.ofInt n) = F64.ofInt n := by
  rw [F64.ofInt_zero]
  generalize hx : F64.ofInt n = x
  cases x with
  | nan => rfl
  | inf s => rfl
  | fin k hk =>
    simp only [F64.add, Int.zero_add]
    exact F64.round_rep k hk

/-! ## The day of the month and the pairs of items -/

/-- The day `time.Parse` returns is the number the last two characters of the
date write. -/
theorem Parse_day (d : String) (t : Time) (h : time.Parse d = some t) :
    t.Day = decimalValue (d.data.drop 8) := by
  unfold time.Parse at h
  split at h
  · rename_i y1 y2 y3 y4 s1 m1 m2 s2 d1 d2 hd
    split at h
    · simp only at h
      split at h
      · cases h
      · split at h
        · cases h
        · injection h with h
          subst h
          rw [hd]
          simp only [Time.Day, List.drop_succ_cons, List.drop_zero]
          exact strconv.digitsVal_eq _
    · cases h
  · cases h

namespace F64

/-- Scaling numerator and denominator leaves the rounded value unchanged. -/
theorem round_mul_right (b : Int) (d : Nat) (hd : 0 < d) :
    round (b * (d : Int)) d = round b 1 := by
  have habs : (b * (d : Int)).natAbs = b.natAbs * d := by
    rw [Int.natAbs_mul, Int.natAbs_ofNat]
  have hneg : decide (b * (d : Int) < 0) = decide (b < 0) := by
    rw [decide_eq_decide]
    constructor
    · intro h'
      by_contra hc
      exact absurd (Int.mul_nonneg (not_lt.1 hc) (Int.ofNat_nonneg d)) (not_le.2 h')
    · intro h'
      exact Int.mul_neg_of_neg_of_pos h' (by exact_mod_cast hd)
  unfold round
  simp only [habs, hneg, Nat.mul_div_cancel _ hd, Nat.div_one, roundMag_mul_right _ _ hd]

/-- The product of two integers below `2^53` is their exact product, rounded. -/
theorem mul_ofInt_nat (x y : Nat) (hx : x < 2 ^ 53) (hy : y < 2 ^ 53) :
    (ofInt (x : Int)).mul (ofInt (y : Int)) = ofInt ((x * y : Nat) : Int) := by
  have e : ((x * 2 ^ 1074 : Nat) : Int) * ((y * 2 ^ 1074 : Nat) : Int) =
      (((x * y : Nat) : Int) * ((2 ^ 1074 : Nat) : Int)) * ((2 ^ 1074 : Nat) : Int) := by
    generalize (2 ^ 1074 : Nat) = u
    push_cast
    ring
  rw [ofInt_nat x hx, ofInt_nat y hy]
  simp only [mul]
  rw [e, round_mul_right _ _ (by positivity)]
  rfl

end F64

/-- A list of characters that are all white space is trimmed to nothing. -/
theorem TrimSpace_of_space (d : String) (h : ∀ c ∈ d.data, unicode.IsSpace c = true) :
    strings.TrimSpace d = "" := by
  unfold strings.TrimSpace
  have e : d.data.dropWhile unicode.IsSpace = [] := by
    rw [List.dropWhile_eq_nil_iff]; exact h
  rw [e]
  rfl

/-! ## The store -/

theorem PointsMap.get_filter_ne (m : PointsMap) (id k : String) (h : k ≠ id) :
    PointsMap.get (m.filter (fun e => e.1 != id)) k = PointsMap.get m k := by
  unfold PointsMap.get
  induction m with
  | nil => rfl
  | cons e m ih =>
    obtain ⟨a, v⟩ := e
    by_cases ha : a = id
    · subst ha
      have hk : (k == a) = false := by simpa using h
      simp only [List.filter, bne_self_eq_false, List.lookup, hk]
      exact ih
    · have hne : (a != id) = true := by simpa using ha
      simp only [List.filter, hne, List.lookup]
      split
      · rfl
      · exact ih

/-- An assignment is found by the key and by no other key. -/
theorem PointsMap.get_set (m : PointsMap) (id k : String) (v : F64) :
    (m.set id v).get k = if k = id then some v else m.get k := by
  by_cases h : k = id
  · subst h
    simp only [PointsMap.set, PointsMap.get, List.lookup, beq_self_eq_true, if_true]
  · have hk : (k == id) = false := by simpa using h
    rw [if_neg h, ← PointsMap.get_filter_ne m id k h]
    simp only [PointsMap.set, PointsMap.get, List.lookup, hk]

/-- Whatever the candidates, the identifier returned is not a key, and it is
the first candidate that is not one. -/
theorem generateId_some (m : PointsMap) (uuids : List String) (id : String)
    (rest : List String) (h : generateId m uuids = some (id, rest)) :
    m.get id = none ∧ ∃ pre, uuids = pre ++ id :: rest ∧ ∀ t ∈ pre, ∃ v, m.get t = some v := by
  induction uuids with
  | nil => simp [generateId] at h
  | cons t ts ih =>
    simp only [generateId] at h
    split at h
    · rename_i v hv
      obtain ⟨h1, pre, h2, h3⟩ := ih h
      refine ⟨h1, t :: pre, by rw [h2]; rfl, ?_⟩
      intro x hx
      rcases List.mem_cons.1 hx with hx | hx
      · subst hx; exact ⟨v, hv⟩
      · exact h3 x hx
    · rename_i hn
      simp only [Option.some.injEq, Prod.mk.injEq] at h
      obtain ⟨rfl, rfl⟩ := h
      exact ⟨hn, [], rfl, fun x hx => absurd hx (List.not_mem_nil x)⟩

/-- The loop comes to an end as soon as one candidate is not a key. -/
theorem generateId_returns (m : PointsMap) (uuids : List String)
    (h : ∃ t ∈ uuids, m.get t = none) : ∃ id rest, generateId m uuids = some (id, rest) := by
  induction uuids with
  | nil => obtain ⟨t, ht, -⟩ := h; exact absurd ht (List.not_mem_nil t)
  | cons t ts ih =>
    simp only [generateId]
    split
    · rename_i v hv
      obtain ⟨x, hx, hxn⟩ := h
      rcases List.mem_cons.1 hx with hx | hx
      · subst hx; rw [hv] at hxn; cases hxn
      · exact ih ⟨x, hx, hxn⟩
    · exact ⟨t, ts, rfl⟩

/-- A call of `processReciept` that answers with an identifier has scored a
receipt, generated the identifier and stored the score under it. -/
theorem processReciept_id_inv {unmarshal : String → Option (Option Receipt)} {m : PointsMap}
    {uuids : List String} {body : String} {id : String} {m1 : PointsMap} {u1 : List String}
    (h : processReciept unmarshal m uuids (Except.ok body) =
      Handled.responded ⟨200, Body.id id⟩ m1 u1) :
    ∃ receipt points, unmarshal body = some receipt ∧
      calculatePoints receipt = Outcome.ret points none ∧
      generateId m uuids = some (id, u1) ∧ m1 = m.set id points := by
  unfold processReciept at h
  simp only at h
  split at h
  · simp only [Handled.responded.injEq, Response.mk.injEq] at h
    exact absurd h.1.1 (by decide)
  · rename_i receipt hdec
    split at h
    · cases h
    · simp only [Handled.responded.injEq, Response.mk.injEq] at h
      exact absurd h.1.1 (by decide)
    · rename_i points hcalc
      split at h
      · cases h
      · rename_i id' rest hgen
        simp only [Handled.responded.injEq, Response.mk.injEq, Body.id.injEq, true_and] at h
        obtain ⟨rfl, rfl, rfl⟩ := h
        exact ⟨receipt, points, hdec, hcalc, hgen, rfl⟩

/-! ## Receipts that pass every check -/

namespace strings

theorem splitChars_of_not_mem (sep : Char) (b : List Char) (h : sep ∉ b) :
    splitChars sep b = [b] := by
  induction b with
  | nil => rfl
  | cons c b ih =>
    have hc : ¬ c = sep := fun e => h (by rw [e]; exact List.mem_cons_self _ _)
    have hb : sep ∉ b := fun e => h (List.mem_cons_of_mem _ e)
    simp only [splitChars, hc, if_false, ih hb]

theorem splitChars_append (sep : Char) (a b : List Char) (ha : sep ∉ a) (hb : sep ∉ b) :
    splitChars sep (a ++ sep :: b) = [a, b] := by
  induction a with
  | nil => simp only [List.nil_append, splitChars, if_true, splitChars_of_not_mem sep b hb]
  | cons c a ih =>
    have hc : ¬ c = sep := fun e => ha (by rw [e]; exact List.mem_cons_self _ _)
    have ha' : sep ∉ a := fun e => ha (List.mem_cons_of_mem _ e)
    have e := ih ha'
    simp only [List.cons_append, splitChars, hc, if_false]
    rw [show a.append (sep :: b) = a ++ sep :: b from rfl, e]

/-- A string with one separator is split into the text before and after it. -/
theorem Split_of_two (t p0 p1 : String) (sep : Char) (e : t.data = p0.data ++ sep :: p1.data)
    (h0 : sep ∉ p0.data) (h1 : sep ∉ p1.data) : Split t sep = [p0, p1] := by
  unfold Split
  rw [e, splitChars_append sep _ _ h0 h1]
  rfl

end strings

theorem isDigit_not_sign (c : Char) (h : c.isDigit = true) : ¬ (c = '-' ∨ c = '+') := by
  rw [← isDigit_eq] at h
  rintro (rfl | rfl) <;> revert h <;> decide

namespace strconv

/-- A decimal integer that denotes a value in `[0,59]` is accepted by `Atoi`,
with that value. -/
theorem Atoi_of_decimal (s : String) (v : Int) (h : IsDecimalInteger s v)
    (h0 : 0 ≤ v) (h59 : v ≤ 59) : Atoi s = some v := by
  obtain ⟨ds, hne, hdig, h⟩ := h
  have hall : ds.all isDigit = true := by
    rw [List.all_eq_true]; intro x hx; rw [isDigit_eq]; exact hdig x hx
  have h63 : ((2 ^ 63 : Nat) : Int) = 9223372036854775808 := by norm_num
  have hval : digitsVal ds = decimalValue ds := digitsVal_eq ds
  rcases h with ⟨hs, hv⟩ | ⟨hs, hv⟩ | ⟨hs, hv⟩
  · obtain ⟨c, rest, rfl⟩ := List.exists_cons_of_ne_nil hne
    have hc := isDigit_not_sign c (hdig c (List.mem_cons_self _ _))
    have hm : ¬ c = '-' := fun e => hc (Or.inl e)
    have hp : ¬ c = '+' := fun e => hc (Or.inr e)
    have hr : (-((2 ^ 63 : Nat) : Int) ≤ (digitsVal (c :: rest) : Int) ∧
        (digitsVal (c :: rest) : Int) < ((2 ^ 63 : Nat) : Int)) := by
      rw [h63, hval]; omega
    simp only [Atoi, hs, hm, hp, or_self, if_false, hne, hall, if_true, decide_False,
      Bool.false_eq_true, hr, and_self]
    rw [hval, hv]
  · have hr : (-((2 ^ 63 : Nat) : Int) ≤ (digitsVal ds : Int) ∧
        (digitsVal ds : Int) < ((2 ^ 63 : Nat) : Int)) := by
      rw [h63, hval]; omega
    have hm : ¬ '+' = '-' := by decide
    simp only [Atoi, hs, or_true, if_true, hne, if_false, hall, hm, decide_False,
      Bool.false_eq_true, hr, and_self]
    rw [hval, hv]
  · have hz : decimalValue ds = 0 := by omega
    have hr : (-((2 ^ 63 : Nat) : Int) ≤ -(digitsVal ds : Int) ∧
        -(digitsVal ds : Int) < ((2 ^ 63 : Nat) : Int)) := by
      rw [h63, hval]; omega
    simp only [Atoi, hs, true_or, if_true, hne, if_false, hall, decide_True, hr, and_self]
    rw [hval, hv]

end strconv

/-- A valid time of C4 passes lines 79-97. -/
theorem parsed_of_validTime (t : String) (h : ValidTime t) :
    ∃ s0 s1 hh mm, strings.Split t ':' = [s0, s1] ∧ strconv.Atoi s0 = some hh ∧
      0 ≤ hh ∧ hh ≤ 23 ∧ strconv.Atoi s1 = some mm ∧ 0 ≤ mm ∧ mm ≤ 59 := by
  obtain ⟨p0, p1, hh, mm, e, n0, n1, d0, d1, a0, a1, b0, b1⟩ := h
  exact ⟨p0, p1, hh, mm, strings.Split_of_two t p0 p1 ':' e n0 n1,
    strconv.Atoi_of_decimal p0 hh d0 a0 (by omega), a0, a1,
    strconv.Atoi_of_decimal p1 mm d1 b0 b1, b0, b1⟩

theorem digitChar_facts :
    ∀ n, n ≤ 9 → isDigit (digitChar n) = true ∧ (digitChar n).toNat - 48 = n := by
  decide

/-- A calendar date written `YYYY-MM-DD` is accepted by `time.Parse`. -/
theorem parsed_of_validDate (d : String) (h : ValidDate d) : ∃ t, time.Parse d = some t := by
  obtain ⟨y, m, dd, hy, hm1, hm12, hd1, hdd, e⟩ := h
  have hm' : daysInMonth y m ≤ 31 := by
    unfold daysInMonth; split <;> (try split) <;> omega
  obtain ⟨i1, v1⟩ := digitChar_facts (y / 1000) (by omega)
  obtain ⟨i2, v2⟩ := digitChar_facts (y / 100 % 10) (by omega)
  obtain ⟨i3, v3⟩ := digitChar_facts (y / 10 % 10) (by omega)
  obtain ⟨i4, v4⟩ := digitChar_facts (y % 10) (by omega)
  obtain ⟨i5, v5⟩ := digitChar_facts (m / 10) (by omega)
  obtain ⟨i6, v6⟩ := digitChar_facts (m % 10) (by omega)
  obtain ⟨i7, v7⟩ := digitChar_facts (dd / 10) (by omega)
  obtain ⟨i8, v8⟩ := digitChar_facts (dd % 10) (by omega)
  have h48 : '0'.toNat = 48 := rfl
  have ey : strconv.digitsVal [digitChar (y / 1000), digitChar (y / 100 % 10),
      digitChar (y / 10 % 10), digitChar (y % 10)] = y := by
    simp only [strconv.digitsVal, List.foldl_cons, List.foldl_nil, h48, v1, v2, v3, v4]
    omega
  have em : strconv.digitsVal [digitChar (m / 10), digitChar (m % 10)] = m := by
    simp only [strconv.digitsVal, List.foldl_cons, List.foldl_nil, h48, v5, v6]
    omega
  have ed : strconv.digitsVal [digitChar (dd / 10), digitChar (dd % 10)] = dd := by
    simp only [strconv.digitsVal, List.foldl_cons, List.foldl_nil, h48, v7, v8]
    omega
  have c1 : ¬ (m < 1 ∨ 12 < m) := by omega
  have c2 : ¬ (dd < 1 ∨ time.daysIn m y < dd) := by
    rw [daysIn_eq y m hm1 hm12]; omega
  refine ⟨⟨y, m, dd⟩, ?_⟩
  unfold time.Parse
  rw [e]
  simp only [List.all_cons, List.all_nil, i1, i2, i3, i4, i5, i6, i7, i8, Bool.and_self,
    and_self, if_true, ey, em, ed, c1, c2, if_false]

theorem checkItems_full (items : List (String × F64)) :
    checkItems (fullItems items) = ItemCheck.pass := by
  induction items with
  | nil => rfl
  | cons x rest ih =>
    simp only [fullItems, List.map_cons, checkItems] at ih ⊢
    simp only [reduceCtorEq, or_self, if_false]
    exact ih

theorem addItems_full (items : List (String × F64)) (p : F64) :
    ∃ q, addItems (fullItems items) p = some q := by
  induction items generalizing p with
  | nil => exact ⟨p, rfl⟩
  | cons x rest ih =>
    simp only [fullItems, List.map_cons, addItems] at ih ⊢
    split
    · exact ih _
    · exact ih _

/-! ## Whole numbers -/

namespace F64

/-- Rounding a whole magnitude gives a whole magnitude. -/
theorem roundMag_whole (a : Nat) (hd : 2 ^ 1074 ∣ a) (hlt : a < 2 ^ 2098) :
    2 ^ 1074 ∣ roundMag a 1 := by
  rcases Nat.lt_or_ge a (2 ^ 53 * 2 ^ 1074) with hj | hj
  · have hrep : IsRep a :=
      ⟨hlt, a / 2 ^ 1074, 1074, (Nat.div_lt_iff_lt_mul (by positivity)).2 hj,
        (Nat.div_mul_cancel hd).symm⟩
    rw [roundMag_rep hrep]; exact hd
  · unfold roundMag
    simp only [Nat.div_one, Nat.one_mul]
    obtain ⟨-, hub⟩ := ilog2Aux_spec 12 a (lt_trans hlt (by norm_num))
    generalize ilog2Aux 12 a = L at *
    have h1 : (2:Nat) ^ 1127 < 2 ^ (L + 1) :=
      lt_of_le_of_lt (le_trans (by norm_num) hj) hub
    have h2 : 1127 < L + 1 := (Nat.pow_lt_pow_iff_right (by norm_num)).1 h1
    exact Dvd.dvd.mul_left (pow_dvd_pow 2 (by omega)) _

theorem isIntegral_round {n : Int} (h : ((2 ^ 1074 : Nat) : Int) ∣ n) :
    IsIntegral (round n 1) := by
  intro hfin
  unfold round at hfin ⊢
  split
  · rename_i h1
    split
    · simp only [isWhole, decide_eq_true_eq]
      rw [← natAbs_dvd_iff, natAbs_signed]
      rw [Nat.div_one] at h1
      exact roundMag_whole _ ((natAbs_dvd_iff n _).2 h) h1
    · rename_i h2
      rw [dif_pos h1, dif_neg h2] at hfin; cases hfin
  · rename_i h1
    rw [dif_neg h1] at hfin; cases hfin

theorem isIntegral_ofInt (n : Int) : IsIntegral (ofInt n) :=
  isIntegral_round (Dvd.intro_left n rfl)

theorem isIntegral_add {x y : F64} (hx : IsIntegral x) (hy : IsIntegral y) :
    IsIntegral (x.add y) := by
  cases x with
  | nan => intro h; cases y <;> cases h
  | inf s =>
    cases y with
    | nan => intro h; cases h
    | inf t => intro h; simp only [F64.add] at h; split at h <;> cases h
    | fin b hb => intro h; cases h
  | fin a ha =>
    cases y with
    | nan => intro h; cases h
    | inf t => intro h; cases h
    | fin b hb =>
      have h1 := hx rfl
      have h2 := hy rfl
      simp only [isWhole, decide_eq_true_eq] at h1 h2
      simp only [F64.add]
      exact isIntegral_round (dvd_add h1 h2)

theorem isIntegral_mul {x y : F64} (hx : IsIntegral x) (hy : IsIntegral y) :
    IsIntegral (x.mul y) := by
  cases x with
  | nan => intro h; cases y <;> cases h
  | inf s =>
    cases y with
    | nan => intro h; cases h
    | inf t => intro h; cases h
    | fin b hb => intro h; simp only [F64.mul] at h; split at h <;> cases h
  | fin a ha =>
    cases y with
    | nan => intro h; cases h
    | inf t => intro h; simp only [F64.mul] at h; split at h <;> cases h
    | fin b hb =>
      have h1 := hx rfl
      have h2 := hy rfl
      simp only [isWhole, decide_eq_true_eq] at h1 h2
      obtain ⟨a', rfl⟩ := h1
      simp only [F64.mul]
      have e : ((2 ^ 1074 : Nat) : Int) * a' * b = (a' * b) * ((2 ^ 1074 : Nat) : Int) := by
        generalize ((2 ^ 1074 : Nat) : Int) = u
        ring
      rw [e, round_mul_right _ _ (by positivity)]
      exact isIntegral_round (Dvd.dvd.mul_left h2 a')

theorem isIntegral_ceil (x : F64) : IsIntegral x.ceil := by
  cases x with
  | nan => intro h; cases h
  | inf s => intro h; cases h
  | fin k hk =>
    intro _
    by_cases h0 : 0 ≤ k
    · simp only [F64.ceil, h0, if_true, isWhole, decide_eq_true_eq]
      rw [← natAbs_dvd_iff, Int.natAbs_ofNat]
      exact Dvd.intro_left _ rfl
    · simp only [F64.ceil, h0, if_false, isWhole, decide_eq_true_eq]
      rw [← natAbs_dvd_iff, Int.natAbs_neg, Int.natAbs_ofNat]
      exact Dvd.intro_left _ rfl

end F64

theorem addItems_integral (items : List (Option Item)) {p q : F64} (hp : p.IsIntegral)
    (h : addItems items p = some q) : q.IsIntegral := by
  induction items generalizing p with
  | nil => simp only [addItems, Option.some.injEq] at h; subst h; exact hp
  | cons e rest ih =>
    cases e with
    | none => simp only [addItems] at h; cases h
    | some it =>
      obtain ⟨d, pr⟩ := it
      cases d with
      | none => simp only [addItems] at h; cases h
      | some d =>
        simp only [addItems] at h
        split at h
        · cases pr with
          | none => simp only at h; cases h
          | some price =>
            simp only at h
            exact ih (F64.isIntegral_add hp (F64.isIntegral_ceil _)) h
        · exact ih hp h

/-- The score of lines 113-142 is a whole number whenever it is a number. -/
theorem score_integral (retailer : String) (total : F64) (items : List (Option Item))
    (h m : Int) (pDate : Time) (p : F64)
    (hs : score retailer total items h m pDate = Outcome.ret p none) : p.IsIntegral := by
  unfold score at hs
  simp only at hs
  split at hs
  · cases hs
  · rename_i q hq
    injection hs with hs _
    subst hs
    have i0 := F64.isIntegral_ofInt 0
    have i1 : (addRetailer retailer (F64.ofInt 0)).IsIntegral :=
      F64.isIntegral_add i0 (F64.isIntegral_ofInt _)
    have i2 : (addRoundDollar total (addRetailer retailer (F64.ofInt 0))).IsIntegral := by
      unfold addRoundDollar; split
      · exact F64.isIntegral_add i1 (F64.isIntegral_ofInt _)
      · exact i1
    have i3 : (addQuarter total (addRoundDollar total
        (addRetailer retailer (F64.ofInt 0)))).IsIntegral := by
      unfold addQuarter; split
      · exact F64.isIntegral_add i2 (F64.isIntegral_ofInt _)
      · exact i2
    have i4 : (addPairs items.length (addQuarter total (addRoundDollar total
        (addRetailer retailer (F64.ofInt 0))))).IsIntegral :=
      F64.isIntegral_add i3 (F64.isIntegral_mul (F64.isIntegral_ofInt _) (F64.isIntegral_ofInt _))
    have i5 : q.IsIntegral := addItems_integral items i4 hq
    have i6 : (addAfternoon h m q).IsIntegral := by
      unfold addAfternoon; split
      · exact F64.isIntegral_add i5 (F64.isIntegral_ofInt _)
      · exact i5
    unfold addOddDay; split
    · exact F64.isIntegral_add i6 (F64.isIntegral_ofInt _)
    · exact i6

theorem isDigit_not_colon (c : Char) (h : c.isDigit = true) : ¬ c = ':' := by
  rw [← isDigit_eq] at h
  rintro rfl
  revert h
  decide

/-- Two digits, a colon and two digits that write an hour in `[0,23]` and a
minute in `[0,59]` are a valid time of C4. -/
theorem validTime_of_HHMM (h1 h2 m1 m2 : Char) (d1 : h1.isDigit = true)
    (d2 : h2.isDigit = true) (d3 : m1.isDigit = true) (d4 : m2.isDigit = true)
    (hh : decimalValue [h1, h2] ≤ 23) (hm : decimalValue [m1, m2] ≤ 59) :
    ValidTime (String.mk [h1, h2, ':', m1, m2]) := by
  refine ⟨String.mk [h1, h2], String.mk [m1, m2], (decimalValue [h1, h2] : Int),
    (decimalValue [m1, m2] : Int), rfl, ?_, ?_, ?_, ?_, Int.ofNat_nonneg _, by omega,
    Int.ofNat_nonneg _, by omega⟩
  · intro hmem
    simp only [List.mem_cons, List.mem_singleton, List.not_mem_nil, or_false] at hmem
    rcases hmem with e | e
    · exact isDigit_not_colon h1 d1 e.symm
    · exact isDigit_not_colon h2 d2 e.symm
  · intro hmem
    simp only [List.mem_cons, List.mem_singleton, List.not_mem_nil, or_false] at hmem
    rcases hmem with e | e
    · exact isDigit_not_colon m1 d3 e.symm
    · exact isDigit_not_colon m2 d4 e.symm
  · refine ⟨[h1, h2], by simp, ?_, Or.inl ⟨rfl, rfl⟩⟩
    intro c hc
    simp only [List.mem_cons, List.mem_singleton, List.not_mem_nil, or_false] at hc
    rcases hc with rfl | rfl <;> assumption
  · refine ⟨[m1, m2], by simp, ?_, Or.inl ⟨rfl, rfl⟩⟩
    intro c hc
    simp only [List.mem_cons, List.mem_singleton, List.not_mem_nil, or_false] at hc
    rcases hc with rfl | rfl <;> assumption

/-! ## The steps of lines 116-132, one by one -/

/-- Line 116 on the initial `0`: the number of ASCII letters and digits of the
retailer name, converted to `float64`. -/
theorem addRetailer_zero (retailer : String) :
    addRetailer retailer (F64.ofInt 0) =
      F64.ofInt ((retailer.data.countP Char.isAlphanum : Nat) : Int) := by
  unfold addRetailer
  rw [F64.zero_add_ofInt]
  unfold len ReplaceAllString
  rw [len_filter_isAlnum]

/-- Lines 118-124 on `n` accumulated points. -/
theorem addTotal_ofInt (total : F64) (n : Nat) (hn : n < 2 ^ 52) :
    addQuarter total (addRoundDollar total (F64.ofInt (n : Int))) =
      F64.ofInt ((n + totalBonus total : Nat) : Int) := by
  unfold addQuarter addRoundDollar totalBonus
  rw [F64.quarter_test, F64.sub_floor_eq_zero]
  have h50 : (F64.ofInt 50) = F64.ofInt ((50 : Nat) : Int) := rfl
  have h25 : (F64.ofInt 25) = F64.ofInt ((25 : Nat) : Int) := rfl
  rw [h50, h25]
  cases hw : total.isWhole
  · have hh : total.isHuge = false := by
      cases hh : total.isHuge
      · rfl
      · rw [F64.isWhole_of_isHuge hh] at hw; cases hw
    cases hq : total.isQuarterMultiple
    · simp only [hh, Bool.false_eq_true, if_false, Bool.false_and, Nat.add_zero]
    · simp only [hh, Bool.false_eq_true, if_false, Bool.not_false, Bool.and_self, if_true]
      exact F64.add_ofInt_nat n 25 (by omega) (by norm_num)
  · have hq := F64.isQuarterMultiple_of_isWhole hw
    cases hh : total.isHuge
    · simp only [hq, Bool.not_false, Bool.and_self, if_true, Bool.false_eq_true, if_false]
      rw [F64.add_ofInt_nat n 50 (by omega) (by norm_num),
        F64.add_ofInt_nat (n + 50) 25 (by omega) (by norm_num)]
    · simp only [hq, Bool.not_true, Bool.and_false, Bool.false_eq_true, if_false, if_true]
      exact F64.add_ofInt_nat n 50 (by omega) (by norm_num)

theorem totalBonus_le (total : F64) : totalBonus total ≤ 75 := by
  unfold totalBonus
  split_ifs <;> omega

/-- The items that pass the loop of lines 107-111 all have a description and
a price. -/
theorem checkItems_pass_full (items : List (Option Item))
    (h : checkItems items = ItemCheck.pass) : ∃ xs, items = fullItems xs := by
  induction items with
  | nil => exact ⟨[], rfl⟩
  | cons a rest ih =>
    cases a with
    | none => simp only [checkItems, reduceCtorEq] at h
    | some it =>
      obtain ⟨d, pr⟩ := it
      simp only [checkItems] at h
      split at h
      · cases h
      · rename_i hn
        obtain ⟨xs, hxs⟩ := ih h
        cases d with
        | none => exact absurd (Or.inl rfl) hn
        | some d =>
          cases pr with
          | none => exact absurd (Or.inr rfl) hn
          | some pr => exact ⟨(d, pr) :: xs, by rw [hxs]; rfl⟩

/-- The loop of lines 128-132 over a list in two parts goes over the first
part, then over the second from the points the first part left. -/
theorem addItems_append (a b : List (Option Item)) (points : F64) :
    addItems (a ++ b) points = (addItems a points).bind (addItems b) := by
  induction a generalizing points with
  | nil => rfl
  | cons x rest ih =>
    cases x with
    | none => rfl
    | some it =>
      obtain ⟨d, pr⟩ := it
      cases d with
      | none => rfl
      | some d =>
        simp only [List.cons_append, addItems]
        split
        · cases pr with
          | none => rfl
          | some pr => exact ih _
        · exact ih _

/-! ## The claims -/

/-- C1, at the failing input: in the receipt with the items
`[null, {"shortDescription": "Pepsi"}]` the price of an item is absent, and
`calculatePoints` returns no error: line 108 dereferences the `nil` first
entry and the call panics.  With the two entries swapped the error is
returned. -/
theorem missing_field_after_nil_entry :
    calculatePoints (some nilEntryReceipt) = Outcome.panic ∧
    calculatePoints (some { nilEntryReceipt with
      Items := some [ some ⟨some "Pepsi", none⟩, none ] }) =
      Outcome.ret (F64.ofInt (-1)) (some "invalid json") := by
  decide

/-- Apart from that case the error is returned: a receipt in which a required
field is absent, one of the five top-level fields or the description or the
price of an item of the list, makes `calculatePoints` return `-1` and the
error `invalid json`, whatever the other fields hold, as long as the entries
of the list before that item are items. -/
theorem calculatePoints_missing_field (r : Receipt)
    (h : r.Retailer = none ∨ r.PurchaseDate = none ∨ r.PurchaseTime = none ∨ r.Total = none ∨
      r.Items = none ∨
      ∃ (pre : List Item) (it : Item) (post : List (Option Item)),
        r.Items = some (pre.map some ++ some it :: post) ∧
        (it.ShortDescription = none ∨ it.Price = none)) :
    calculatePoints (some r) = Outcome.ret (F64.ofInt (-1)) (some "invalid json") := by
  rcases h with h | h | h | h | h | ⟨pre, it, post, h5, hbad⟩
  · obtain ⟨re, pd, pt, tot, its⟩ := r
    simp only at h; subst h
    cases pd <;> cases pt <;> cases tot <;> cases its <;> rfl
  · obtain ⟨re, pd, pt, tot, its⟩ := r
    simp only at h; subst h
    cases re <;> cases pt <;> cases tot <;> cases its <;> rfl
  · obtain ⟨re, pd, pt, tot, its⟩ := r
    simp only at h; subst h
    cases re <;> cases pd <;> cases tot <;> cases its <;> rfl
  · obtain ⟨re, pd, pt, tot, its⟩ := r
    simp only at h; subst h
    cases re <;> cases pd <;> cases pt <;> cases its <;> rfl
  · obtain ⟨re, pd, pt, tot, its⟩ := r
    simp only at h; subst h
    cases re <;> cases pd <;> cases pt <;> cases tot <;> rfl
  · exact calculatePoints_invalid_of_check h5 (checkItems_invalid pre it post hbad)

/-- The receipt whose second item has no price returns the error. -/
theorem missingPriceReceipt_invalid :
    calculatePoints (some missingPriceReceipt) =
      Outcome.ret (F64.ofInt (-1)) (some "invalid json") :=
  calculatePoints_missing_field missingPriceReceipt
    (Or.inr (Or.inr (Or.inr (Or.inr (Or.inr
      ⟨[⟨some "Gatorade", some (F64.ofRat 225 100)⟩], ⟨some "Pepsi", none⟩, [], rfl,
        Or.inr rfl⟩)))))

/-- C2 fails as stated: the receipt with total `-1000` and one item `abc` of
price `-1000` is valid and its score is `-119`, which is not `>= 0`. -/
theorem score_negative_counterexample :
    calculatePoints (some negativePriceReceipt) = Outcome.ret (F64.ofInt (-119)) none ∧
      (F64.ofInt 0).le (F64.ofInt (-119)) = false := by
  decide

/-- C2, amended: a valid receipt in which every item price is `>= 0` has a
score `>= 0`; the total may be negative. -/
theorem score_nonneg_of_prices (r : Receipt) (p : F64)
    (hv : calculatePoints (some r) = Outcome.ret p none)
    (hprice : ∀ items, r.Items = some items → ∀ it, some it ∈ items →
      ∀ price, it.Price = some price → (F64.ofInt 0).le price = true) :
    (F64.ofInt 0).le p = true := by
  obtain ⟨retailer, purchaseDate, purchaseTime, total, items, s0, s1, hh, mm, pDate,
    -, -, -, -, h5, -, -, -, -, -, -, -, -, -, hs⟩ := calculatePoints_ret_inv hv
  unfold score at hs
  simp only at hs
  split at hs
  · cases hs
  · rename_i q hq
    injection hs with hs _
    subst hs
    have h0 : (F64.ofInt 0).NonNeg := F64.nonNeg_ofInt (le_refl _)
    have hq' : q.NonNeg :=
      addItems_nonNeg items (hprice items h5)
        (addPairs_nonNeg _ (addQuarter_nonNeg _ (addRoundDollar_nonNeg _
          (addRetailer_nonNeg _ h0)))) hq
    exact addOddDay_nonNeg _ (addAfternoon_nonNeg _ _ hq')

/-- C2, amended, at the receipt of the upstream example. -/
theorem score_nonneg_of_prices_witness :
    (F64.ofInt 0).le (F64.ofInt 28) = true :=
  score_nonneg_of_prices scenarioA (F64.ofInt 28) (by decide) (by
    intro items h it hit price hp
    have hi : items = _ := (Option.some.inj h).symm
    subst hi
    simp only [List.mem_cons, Option.some.injEq, List.mem_singleton, List.not_mem_nil, or_false]
      at hit
    rcases hit with rfl | rfl | rfl | rfl | rfl <;>
      (have hq := (Option.some.inj hp).symm; subst hq; decide))

/-- C3: the upstream example receipt (Target, 2022-01-01, 13:01, total 35.35,
five items) is valid and scores exactly 28. -/
theorem scenarioA_points :
    calculatePoints (some scenarioA) = Outcome.ret (F64.ofInt 28) none := by
  decide

/-- C4: whatever the other fields, a purchase time that is not two decimal
integers around one colon with the hour in `[0,23]` and the minute in `[0,59]`
makes `calculatePoints` return the error. -/
theorem calculatePoints_invalid_time (r : Receipt) (t : String)
    (ht : r.PurchaseTime = some t) (hbad : ¬ ValidTime t) :
    calculatePoints (some r) = Outcome.ret (F64.ofInt (-1)) (some "invalid json") := by
  rcases calculatePoints_checks r with h |
    ⟨t', d, s0, s1, hh, mm, pDate, ht', -, hs, h0, hh0, hh1, h1, hm0, hm1, -⟩
  · exact h
  · have e : t' = t := Option.some.inj (ht'.symm.trans ht)
    subst e
    exact absurd (validTime_of_parsed t' s0 s1 hh mm hs h0 hh0 hh1 h1 hm0 hm1) hbad

/-- C4 at the purchase time `"12"`, which has no colon. -/
theorem calculatePoints_invalid_time_witness :
    calculatePoints (some (plainReceipt "12" (F64.ofInt 1))) =
      Outcome.ret (F64.ofInt (-1)) (some "invalid json") :=
  calculatePoints_invalid_time (plainReceipt "12" (F64.ofInt 1)) "12" rfl (by
    rintro ⟨p0, p1, h, m, e, -⟩
    have hmem : ':' ∈ "12".data := by rw [e]; simp
    revert hmem
    decide)

/-- C5 fails as stated: `"9:5"`, `"+13:01"`, `"013:001"` and `"-0:00"` are not
of the form two digits, colon, two digits, and each is accepted; the receipt
is scored 6, as with `"09:05"`. -/
theorem loose_time_counterexample :
    (isHHMM "9:5" = false ∧
      calculatePoints (some (plainReceipt "9:5" (F64.ofRat 1 10))) =
        Outcome.ret (F64.ofInt 6) none) ∧
    (isHHMM "+13:01" = false ∧
      calculatePoints (some (plainReceipt "+13:01" (F64.ofRat 1 10))) =
        Outcome.ret (F64.ofInt 6) none) ∧
    (isHHMM "013:001" = false ∧
      calculatePoints (some (plainReceipt "013:001" (F64.ofRat 1 10))) =
        Outcome.ret (F64.ofInt 6) none) ∧
    (isHHMM "-0:00" = false ∧
      calculatePoints (some (plainReceipt "-0:00" (F64.ofRat 1 10))) =
        Outcome.ret (F64.ofInt 6) none) := by
  decide

/-- C5, amended: `calculatePoints` accepts a receipt only when its purchase
time is two decimal integers (optional sign, one or more digits) around one
colon, the hour denoting a value in `[0,23]` and the minute one in `[0,59]`;
two digits are not required. -/
theorem accepted_time_form (r : Receipt) (p : F64)
    (hv : calculatePoints (some r) = Outcome.ret p none) :
    ∃ t, r.PurchaseTime = some t ∧ ValidTime t := by
  obtain ⟨retailer, purchaseDate, purchaseTime, total, items, s0, s1, hh, mm, pDate,
    -, -, h3, -, -, hs, h0, hh0, hh1, h1, hm0, hm1, -, -, -⟩ := calculatePoints_ret_inv hv
  exact ⟨purchaseTime, h3, validTime_of_parsed _ s0 s1 hh mm hs h0 hh0 hh1 h1 hm0 hm1⟩

/-- C5, amended, at the purchase time `"9:5"`. -/
theorem accepted_time_form_witness :
    ∃ t, (plainReceipt "9:5" (F64.ofRat 1 10)).PurchaseTime = some t ∧ ValidTime t :=
  accepted_time_form (plainReceipt "9:5" (F64.ofRat 1 10)) (F64.ofInt 6) (by decide)

/-- C6: whatever the other fields, a purchase date that is not a calendar date
written `YYYY-MM-DD` (four digits, two digits in `01..12`, two digits between
`01` and the length of that month in that year, nothing else) makes
`calculatePoints` return the error. -/
theorem calculatePoints_invalid_date (r : Receipt) (d : String)
    (hd : r.PurchaseDate = some d) (hbad : ¬ ValidDate d) :
    calculatePoints (some r) = Outcome.ret (F64.ofInt (-1)) (some "invalid json") := by
  rcases calculatePoints_checks r with h |
    ⟨t, d', s0, s1, hh, mm, pDate, -, hd', -, -, -, -, -, -, -, hp⟩
  · exact h
  · have e : d' = d := Option.some.inj (hd'.symm.trans hd)
    subst e
    exact absurd (validDate_of_parsed d' pDate hp) hbad

/-- C6 at the purchase date `"2022-1-1"`, whose month and day have one digit. -/
theorem calculatePoints_invalid_date_witness :
    calculatePoints (some { plainReceipt "13:01" (F64.ofInt 1) with
      PurchaseDate := some "2022-1-1" }) =
      Outcome.ret (F64.ofInt (-1)) (some "invalid json") :=
  calculatePoints_invalid_date _ "2022-1-1" rfl (by
    rintro ⟨y, m, dd, -, -, -, -, -, e⟩
    have hlen := congrArg List.length e
    have h8 : "2022-1-1".data.length = 8 := by decide
    rw [h8] at hlen
    simp only [List.length_cons, List.length_nil] at hlen
    omega)

/-- C7 fails as stated: the total `1e308` is a whole number, so the claim has
it add 75, but it adds 50: the receipt scores 56, against 6 with the total
`0.1`.  The quotient `1e308 / 0.25` overflows to `+Inf`, and `Inf - Inf` is a
NaN, which is not `== 0`. -/
theorem big_total_counterexample :
    bigTotal.isWhole = true ∧ claimedTotalBonus bigTotal = 75 ∧
    bigTotal.div (F64.ofRat 1 4) = F64.inf false ∧
    addQuarter bigTotal (addRoundDollar bigTotal (F64.ofInt 6)) = F64.ofInt 56 ∧
    calculatePoints (some (plainReceipt "13:01" bigTotal)) =
      Outcome.ret (F64.ofInt 56) none ∧
    calculatePoints (some (plainReceipt "13:01" (F64.ofRat 1 10))) =
      Outcome.ret (F64.ofInt 6) none := by
  decide

/-- C7, amended: in a valid receipt whose retailer name has `n` ASCII letters
and digits (`n` below `2^52`), the points are `n` before line 118 and
`n + totalBonus total` after line 124, and the score is what lines 126-142
make of that: the total adds 75 when it is a whole number of magnitude below
`2^1022`, 50 when it is a (whole) number of magnitude `2^1022` or more, 25
when it is a multiple of `0.25` that is not whole, and 0 otherwise, an
infinity or a NaN included. -/
theorem receipt_total_bonus (r : Receipt) (p : F64) (retailer : String) (total : F64)
    (items : List (Option Item))
    (hv : calculatePoints (some r) = Outcome.ret p none)
    (hr : r.Retailer = some retailer) (ht : r.Total = some total) (hi : r.Items = some items)
    (hn : retailer.data.countP Char.isAlphanum < 2 ^ 52) :
    ∃ t d s0 s1 h m pDate q,
      r.PurchaseTime = some t ∧ r.PurchaseDate = some d ∧
      strings.Split t ':' = [s0, s1] ∧ strconv.Atoi s0 = some h ∧ strconv.Atoi s1 = some m ∧
      time.Parse d = some pDate ∧
      addRetailer retailer (F64.ofInt 0) =
        F64.ofInt ((retailer.data.countP Char.isAlphanum : Nat) : Int) ∧
      addItems items (addPairs items.length
        (F64.ofInt ((retailer.data.countP Char.isAlphanum + totalBonus total : Nat) : Int))) =
        some q ∧
      p = addOddDay pDate (addAfternoon h m q) := by
  obtain ⟨retailer1, purchaseDate, purchaseTime, total1, items1, s0, s1, hh, mm, pDate,
    h1, h2, h3, h4, h5, hs, h0, -, -, hm, -, -, hd, -, hsc⟩ := calculatePoints_ret_inv hv
  rw [hr] at h1
  rw [ht] at h4
  rw [hi] at h5
  injection h1 with h1
  injection h4 with h4
  injection h5 with h5
  subst h1 h4 h5
  have key : ∀ n : Nat, n < 2 ^ 52 →
      addQuarter total (addRoundDollar total (F64.ofInt (n : Int))) =
        F64.ofInt ((n + totalBonus total : Nat) : Int) := by
    intro n hn
    unfold addQuarter addRoundDollar totalBonus
    rw [F64.quarter_test, F64.sub_floor_eq_zero]
    have h50 : (F64.ofInt 50) = F64.ofInt ((50 : Nat) : Int) := rfl
    have h25 : (F64.ofInt 25) = F64.ofInt ((25 : Nat) : Int) := rfl
    rw [h50, h25]
    cases hw : total.isWhole
    · have hh : total.isHuge = false := by
        cases hh : total.isHuge
        · rfl
        · rw [F64.isWhole_of_isHuge hh] at hw; cases hw
      cases hq : total.isQuarterMultiple
      · simp only [hh, Bool.false_eq_true, if_false, Bool.false_and, Nat.add_zero]
      · simp only [hh, Bool.false_eq_true, if_false, Bool.not_false, Bool.and_self, if_true]
        exact F64.add_ofInt_nat n 25 (by omega) (by norm_num)
    · have hq := F64.isQuarterMultiple_of_isWhole hw
      cases hh : total.isHuge
      · simp only [hq, Bool.not_false, Bool.and_self, if_true, Bool.false_eq_true, if_false]
        rw [F64.add_ofInt_nat n 50 (by omega) (by norm_num),
          F64.add_ofInt_nat (n + 50) 25 (by omega) (by norm_num)]
      · simp only [hq, Bool.not_true, Bool.and_false, Bool.false_eq_true, if_false, if_true]
        exact F64.add_ofInt_nat n 50 (by omega) (by norm_num)
  unfold score at hsc
  simp only at hsc
  split at hsc
  · cases hsc
  · rename_i q hq
    injection hsc with hsc _
    rw [addRetailer_zero, key _ hn] at hq
    exact ⟨purchaseTime, purchaseDate, s0, s1, hh, mm, pDate, q, h3, h2, hs, h0, hm, hd,
      addRetailer_zero retailer, hq, hsc.symm⟩

/-- C7, amended, at the total `100.00` and the retailer `"Target"`: the score
81 is 6 and 75. -/
theorem receipt_total_bonus_witness :
    ∃ t d s0 s1 h m pDate q,
      (plainReceipt "13:01" (F64.ofInt 100)).PurchaseTime = some t ∧
      (plainReceipt "13:01" (F64.ofInt 100)).PurchaseDate = some d ∧
      strings.Split t ':' = [s0, s1] ∧ strconv.Atoi s0 = some h ∧ strconv.Atoi s1 = some m ∧
      time.Parse d = some pDate ∧
      addRetailer "Target" (F64.ofInt 0) =
        F64.ofInt (("Target".data.countP Char.isAlphanum : Nat) : Int) ∧
      addItems [] (addPairs ([] : List (Option Item)).length
        (F64.ofInt (("Target".data.countP Char.isAlphanum + totalBonus (F64.ofInt 100) : Nat)
          : Int))) = some q ∧
      F64.ofInt 81 = addOddDay pDate (addAfternoon h m q) :=
  receipt_total_bonus (plainReceipt "13:01" (F64.ofInt 100)) (F64.ofInt 81) "Target"
    (F64.ofInt 100) [] (by decide) rfl rfl rfl (by decide)

/-- C8 fails as stated: the description `"été"` has three characters and earns
nothing (it has five bytes), and `"éa"` has two characters and earns
`ceil(10 * 0.2) = 2` (it has three bytes). -/
theorem description_length_counterexample :
    ((strings.TrimSpace "été").length = 3 ∧
      calculatePoints (some (oneItemReceipt "été")) = Outcome.ret (F64.ofInt 6) none) ∧
    ((strings.TrimSpace "éa").length = 2 ∧
      calculatePoints (some (oneItemReceipt "éa")) = Outcome.ret (F64.ofInt 8) none) ∧
    calculatePoints (some (oneItemReceipt "abc")) = Outcome.ret (F64.ofInt 8) none := by
  decide

/-- C8, amended: the items of a valid receipt all have a description and a
price, and the score is what lines 134-140 make of the fold, over the items in
turn and from the points accumulated before line 128, that adds for an item
`ceil(price * 0.2)` when the number of bytes of the UTF-8 encoding of its
trimmed description is a multiple of 3, and nothing otherwise. -/
theorem receipt_item_bonus (r : Receipt) (p : F64) (retailer : String) (total : F64)
    (hv : calculatePoints (some r) = Outcome.ret p none)
    (hr : r.Retailer = some retailer) (ht : r.Total = some total) :
    ∃ xs t d s0 s1 h m pDate,
      r.Items = some (fullItems xs) ∧
      r.PurchaseTime = some t ∧ r.PurchaseDate = some d ∧
      strings.Split t ':' = [s0, s1] ∧ strconv.Atoi s0 = some h ∧ strconv.Atoi s1 = some m ∧
      time.Parse d = some pDate ∧
      p = addOddDay pDate (addAfternoon h m
        (xs.foldl (fun acc x =>
          if (strings.TrimSpace x.1).utf8ByteSize % 3 = 0
          then acc.add (x.2.mul (F64.ofRat 2 10)).ceil else acc)
          (addPairs xs.length (addQuarter total (addRoundDollar total
            (addRetailer retailer (F64.ofInt 0))))))) := by
  obtain ⟨retailer1, purchaseDate, purchaseTime, total1, items, s0, s1, hh, mm, pDate,
    h1, h2, h3, h4, h5, hs, h0, -, -, hm, -, -, hd, hc, hsc⟩ := calculatePoints_ret_inv hv
  rw [hr] at h1
  rw [ht] at h4
  injection h1 with h1
  injection h4 with h4
  subst h1 h4
  obtain ⟨xs, hxs⟩ := checkItems_pass_full items hc
  subst hxs
  have key : ∀ (ys : List (String × F64)) (points : F64),
      addItems (fullItems ys) points =
        some (ys.foldl (fun acc x =>
          if (strings.TrimSpace x.1).utf8ByteSize % 3 = 0
          then acc.add (x.2.mul (F64.ofRat 2 10)).ceil else acc) points) := by
    intro ys
    induction ys with
    | nil => intro points; rfl
    | cons x rest ih =>
      intro points
      simp only [fullItems, List.map_cons, List.foldl_cons, addItems, len_eq_utf8ByteSize] at ih ⊢
      split
      · exact ih _
      · exact ih _
  have hlen : (fullItems xs).length = xs.length := by
    unfold fullItems; exact List.length_map _ _
  unfold score at hsc
  simp only at hsc
  split at hsc
  · cases hsc
  · rename_i q hq
    injection hsc with hsc _
    rw [key, hlen] at hq
    injection hq with hq
    rw [← hq] at hsc
    exact ⟨xs, purchaseTime, purchaseDate, s0, s1, hh, mm, pDate, h5, h3, h2, hs, h0, hm, hd,
      hsc.symm⟩

/-- C8, amended, at the description `"éa"`, of two characters and three
bytes, and the price `10.00`: the score 8 is 6 and 2. -/
theorem receipt_item_bonus_witness :
    ∃ xs t d s0 s1 h m pDate,
      (oneItemReceipt "éa").Items = some (fullItems xs) ∧
      (oneItemReceipt "éa").PurchaseTime = some t ∧
      (oneItemReceipt "éa").PurchaseDate = some d ∧
      strings.Split t ':' = [s0, s1] ∧ strconv.Atoi s0 = some h ∧ strconv.Atoi s1 = some m ∧
      time.Parse d = some pDate ∧
      F64.ofInt 8 = addOddDay pDate (addAfternoon h m
        (xs.foldl (fun acc x =>
          if (strings.TrimSpace x.1).utf8ByteSize % 3 = 0
          then acc.add (x.2.mul (F64.ofRat 2 10)).ceil else acc)
          (addPairs xs.length (addQuarter (F64.ofRat 1 10) (addRoundDollar (F64.ofRat 1 10)
            (addRetailer "Target" (F64.ofInt 0))))))) :=
  receipt_item_bonus (oneItemReceipt "éa") (F64.ofInt 8) "Target" (F64.ofRat 1 10)
    (by decide) rfl rfl

/-- C9: in a valid receipt whose purchase time parses to the hour `h` and the
minute `m`, with `q` the points accumulated before line 134, the score is what
the odd-day step makes of `q + 10` when `840 <= 60*h + m <= 960`, and of `q`
otherwise. -/
theorem afternoon_bonus (r : Receipt) (p : F64)
    (hv : calculatePoints (some r) = Outcome.ret p none) :
    ∃ retailer total items t d s0 s1 h m pDate q,
      r.Retailer = some retailer ∧ r.Total = some total ∧ r.Items = some items ∧
      r.PurchaseTime = some t ∧ r.PurchaseDate = some d ∧
      strings.Split t ':' = [s0, s1] ∧ strconv.Atoi s0 = some h ∧ strconv.Atoi s1 = some m ∧
      time.Parse d = some pDate ∧ pointsBeforeTime retailer total items = some q ∧
      p = addOddDay pDate
        (if 840 ≤ 60 * h + m ∧ 60 * h + m ≤ 960 then q.add (F64.ofInt 10) else q) := by
  obtain ⟨retailer, purchaseDate, purchaseTime, total, items, s0, s1, hh, mm, pDate,
    h1, h2, h3, h4, h5, hs, h0, hh0, hh1, hm, hm0, hm1, hd, -, hsc⟩ :=
    calculatePoints_ret_inv hv
  unfold score at hsc
  simp only at hsc
  split at hsc
  · cases hsc
  · rename_i q hq
    injection hsc with hsc _
    refine ⟨retailer, total, items, purchaseTime, purchaseDate, s0, s1, hh, mm, pDate, q,
      h1, h4, h5, h3, h2, hs, h0, hm, hd, hq, ?_⟩
    rw [← hsc]
    congr 1
    unfold addAfternoon
    by_cases hc : (hh ≥ 14 ∧ hh < 16) ∨ (hh = 16 ∧ mm = 0)
    · rw [if_pos hc, if_pos (by omega)]
    · rw [if_neg hc, if_neg (by omega)]

/-- C9 at the purchase time `"16:00"`. -/
theorem afternoon_bonus_witness :
    ∃ retailer total items t d s0 s1 h m pDate q,
      (plainReceipt "16:00" (F64.ofRat 1 10)).Retailer = some retailer ∧
      (plainReceipt "16:00" (F64.ofRat 1 10)).Total = some total ∧
      (plainReceipt "16:00" (F64.ofRat 1 10)).Items = some items ∧
      (plainReceipt "16:00" (F64.ofRat 1 10)).PurchaseTime = some t ∧
      (plainReceipt "16:00" (F64.ofRat 1 10)).PurchaseDate = some d ∧
      strings.Split t ':' = [s0, s1] ∧ strconv.Atoi s0 = some h ∧ strconv.Atoi s1 = some m ∧
      time.Parse d = some pDate ∧ pointsBeforeTime retailer total items = some q ∧
      F64.ofInt 16 = addOddDay pDate
        (if 840 ≤ 60 * h + m ∧ 60 * h + m ≤ 960 then q.add (F64.ofInt 10) else q) :=
  afternoon_bonus (plainReceipt "16:00" (F64.ofRat 1 10)) (F64.ofInt 16) (by decide)

/-- C10: in a valid receipt line 116 makes of the initial `0` the number of
ASCII letters and digits of the retailer name, converted to `float64`, and the
score is what lines 118-142 make of that number; no other character of the
name counts. -/
theorem receipt_retailer_points (r : Receipt) (p : F64) (retailer : String) (total : F64)
    (items : List (Option Item))
    (hv : calculatePoints (some r) = Outcome.ret p none)
    (hr : r.Retailer = some retailer) (ht : r.Total = some total) (hi : r.Items = some items) :
    ∃ t d s0 s1 h m pDate q,
      r.PurchaseTime = some t ∧ r.PurchaseDate = some d ∧
      strings.Split t ':' = [s0, s1] ∧ strconv.Atoi s0 = some h ∧ strconv.Atoi s1 = some m ∧
      time.Parse d = some pDate ∧
      addItems items (addPairs items.length (addQuarter total (addRoundDollar total
        (F64.ofInt ((retailer.data.countP Char.isAlphanum : Nat) : Int))))) = some q ∧
      p = addOddDay pDate (addAfternoon h m q) := by
  obtain ⟨retailer1, purchaseDate, purchaseTime, total1, items1, s0, s1, hh, mm, pDate,
    h1, h2, h3, h4, h5, hs, h0, -, -, hm, -, -, hd, -, hsc⟩ := calculatePoints_ret_inv hv
  rw [hr] at h1
  rw [ht] at h4
  rw [hi] at h5
  injection h1 with h1
  injection h4 with h4
  injection h5 with h5
  subst h1 h4 h5
  unfold score at hsc
  simp only at hsc
  split at hsc
  · cases hsc
  · rename_i q hq
    injection hsc with hsc _
    unfold addRetailer at hq
    rw [F64.zero_add_ofInt] at hq
    unfold len ReplaceAllString at hq
    rw [len_filter_isAlnum] at hq
    exact ⟨purchaseTime, purchaseDate, s0, s1, hh, mm, pDate, q, h3, h2, hs, h0, hm, hd, hq,
      hsc.symm⟩

/-- C10 at the retailer `"M&M Corner Market"`, which scores 14. -/
theorem receipt_retailer_points_witness :
    ∃ t d s0 s1 h m pDate q,
      (retailerReceipt "M&M Corner Market").PurchaseTime = some t ∧
      (retailerReceipt "M&M Corner Market").PurchaseDate = some d ∧
      strings.Split t ':' = [s0, s1] ∧ strconv.Atoi s0 = some h ∧ strconv.Atoi s1 = some m ∧
      time.Parse d = some pDate ∧
      addItems [] (addPairs ([] : List (Option Item)).length
        (addQuarter (F64.ofRat 1 10) (addRoundDollar (F64.ofRat 1 10)
          (F64.ofInt (("M&M Corner Market".data.countP Char.isAlphanum : Nat) : Int))))) =
        some q ∧
      F64.ofInt 14 = addOddDay pDate (addAfternoon h m q) :=
  receipt_retailer_points (retailerReceipt "M&M Corner Market") (F64.ofInt 14)
    "M&M Corner Market" (F64.ofRat 1 10) [] (by decide) rfl rfl rfl

/-! ## The examples the specification names -/

/-- The purchase times `"24:00"`, `"12:60"`, `"12"`, `"12:00:00"`, `"ab:cd"`
and `"-1:30"` are rejected. -/
theorem invalid_time_examples :
    ∀ t ∈ ["24:00", "12:60", "12", "12:00:00", "ab:cd", "-1:30"],
      calculatePoints (some (plainReceipt t (F64.ofInt 1))) =
        Outcome.ret (F64.ofInt (-1)) (some "invalid json") := by
  decide

/-- The purchase dates `"2022-02-30"`, `"2023-02-29"`, `"2022-13-01"`,
`"2022-1-1"` and `"01/01/2022"` are rejected, and `"2024-02-29"` is accepted. -/
theorem invalid_date_examples :
    (∀ d ∈ ["2022-02-30", "2023-02-29", "2022-13-01", "2022-1-1", "01/01/2022"],
      calculatePoints (some { plainReceipt "13:01" (F64.ofRat 1 10) with
        PurchaseDate := some d }) = Outcome.ret (F64.ofInt (-1)) (some "invalid json")) ∧
    calculatePoints (some { plainReceipt "13:01" (F64.ofRat 1 10) with
      PurchaseDate := some "2024-02-29" }) = Outcome.ret (F64.ofInt 12) none := by
  decide

/-- The total `100.00` earns both bonuses, `0.75` the second one, `0.10`
none. -/
theorem total_examples :
    calculatePoints (some (plainReceipt "13:01" (F64.ofRat 10000 100))) =
      Outcome.ret (F64.ofInt 81) none ∧
    calculatePoints (some (plainReceipt "13:01" (F64.ofRat 75 100))) =
      Outcome.ret (F64.ofInt 31) none ∧
    calculatePoints (some (plainReceipt "13:01" (F64.ofRat 10 100))) =
      Outcome.ret (F64.ofInt 6) none := by
  decide

/-- The purchase times `"14:00"`, `"15:59"` and `"16:00"` earn the afternoon
bonus; `"13:59"` and `"16:01"` do not. -/
theorem afternoon_examples :
    (∀ t ∈ ["14:00", "15:59", "16:00"],
      calculatePoints (some (plainReceipt t (F64.ofRat 1 10))) =
        Outcome.ret (F64.ofInt 16) none) ∧
    (∀ t ∈ ["13:59", "16:01"],
      calculatePoints (some (plainReceipt t (F64.ofRat 1 10))) =
        Outcome.ret (F64.ofInt 6) none) := by
  decide

/-- The retailer `"Target"` adds 6, `"M&M Corner Market"` 14, the empty name
and `"Café №"` add 0 and 3. -/
theorem retailer_examples :
    addRetailer "Target" (F64.ofInt 0) = F64.ofInt 6 ∧
    addRetailer "M&M Corner Market" (F64.ofInt 0) = F64.ofInt 14 ∧
    addRetailer "" (F64.ofInt 0) = F64.ofInt 0 ∧
    addRetailer "Café №" (F64.ofInt 0) = F64.ofInt 3 := by
  decide

/-! ## The claims, continued -/

/-- C11: in a valid receipt the odd-day step adds 6 exactly when the number
written by the two characters `DD` of the purchase date is odd, whatever the
month and the year; `q` is the points accumulated before line 134. -/
theorem odd_day_bonus (r : Receipt) (p : F64)
    (hv : calculatePoints (some r) = Outcome.ret p none) :
    ∃ retailer total items t d s0 s1 h m q,
      r.Retailer = some retailer ∧ r.Total = some total ∧ r.Items = some items ∧
      r.PurchaseTime = some t ∧ r.PurchaseDate = some d ∧
      strings.Split t ':' = [s0, s1] ∧ strconv.Atoi s0 = some h ∧ strconv.Atoi s1 = some m ∧
      pointsBeforeTime retailer total items = some q ∧
      p = if decimalValue (d.data.drop 8) % 2 = 1
        then (addAfternoon h m q).add (F64.ofInt 6) else addAfternoon h m q := by
  obtain ⟨retailer, purchaseDate, purchaseTime, total, items, s0, s1, hh, mm, pDate,
    h1, h2, h3, h4, h5, hs, h0, -, -, hm, -, -, hd, -, hsc⟩ :=
    calculatePoints_ret_inv hv
  unfold score at hsc
  simp only at hsc
  split at hsc
  · cases hsc
  · rename_i q hq
    injection hsc with hsc _
    refine ⟨retailer, total, items, purchaseTime, purchaseDate, s0, s1, hh, mm, q,
      h1, h4, h5, h3, h2, hs, h0, hm, hq, ?_⟩
    rw [← hsc, ← Parse_day purchaseDate pDate hd]
    rfl

/-- C11 at the upstream example, bought on the first of the month. -/
theorem odd_day_bonus_witness :
    ∃ retailer total items t d s0 s1 h m q,
      scenarioA.Retailer = some retailer ∧ scenarioA.Total = some total ∧
      scenarioA.Items = some items ∧
      scenarioA.PurchaseTime = some t ∧ scenarioA.PurchaseDate = some d ∧
      strings.Split t ':' = [s0, s1] ∧ strconv.Atoi s0 = some h ∧ strconv.Atoi s1 = some m ∧
      pointsBeforeTime retailer total items = some q ∧
      F64.ofInt 28 = if decimalValue (d.data.drop 8) % 2 = 1
        then (addAfternoon h m q).add (F64.ofInt 6) else addAfternoon h m q :=
  odd_day_bonus scenarioA (F64.ofInt 28) (by decide)

/-- C12: in a valid receipt of `n` items (`n` below `2^50`, the retailer's
count `c` below `2^51`), the points are the whole number
`a = c + totalBonus total` before line 126 and `a + 5 * (n / 2)` after it, the
quotient being the integer one, and the score is what lines 128-142 make of
that. -/
theorem receipt_pair_bonus (r : Receipt) (p : F64) (retailer : String) (total : F64)
    (items : List (Option Item))
    (hv : calculatePoints (some r) = Outcome.ret p none)
    (hr : r.Retailer = some retailer) (ht : r.Total = some total) (hi : r.Items = some items)
    (hc : retailer.data.countP Char.isAlphanum < 2 ^ 51) (hn : items.length < 2 ^ 50) :
    ∃ t d s0 s1 h m pDate q,
      r.PurchaseTime = some t ∧ r.PurchaseDate = some d ∧
      strings.Split t ':' = [s0, s1] ∧ strconv.Atoi s0 = some h ∧ strconv.Atoi s1 = some m ∧
      time.Parse d = some pDate ∧
      addQuarter total (addRoundDollar total (addRetailer retailer (F64.ofInt 0))) =
        F64.ofInt ((retailer.data.countP Char.isAlphanum + totalBonus total : Nat) : Int) ∧
      addItems items (F64.ofInt ((retailer.data.countP Char.isAlphanum + totalBonus total +
        5 * (items.length / 2) : Nat) : Int)) = some q ∧
      p = addOddDay pDate (addAfternoon h m q) := by
  obtain ⟨retailer1, purchaseDate, purchaseTime, total1, items1, s0, s1, hh, mm, pDate,
    h1, h2, h3, h4, h5, hs, h0, -, -, hm, -, -, hd, -, hsc⟩ := calculatePoints_ret_inv hv
  rw [hr] at h1
  rw [ht] at h4
  rw [hi] at h5
  injection h1 with h1
  injection h4 with h4
  injection h5 with h5
  subst h1 h4 h5
  have hb := totalBonus_le total
  have ha : addQuarter total (addRoundDollar total (addRetailer retailer (F64.ofInt 0))) =
      F64.ofInt ((retailer.data.countP Char.isAlphanum + totalBonus total : Nat) : Int) := by
    rw [addRetailer_zero, addTotal_ofInt total _ (by omega)]
  unfold score at hsc
  simp only at hsc
  split at hsc
  · cases hsc
  · rename_i q hq
    injection hsc with hsc _
    have h5 : F64.ofInt 5 = F64.ofInt ((5 : Nat) : Int) := rfl
    rw [ha] at hq
    unfold addPairs at hq
    rw [h5, F64.mul_ofInt_nat (items.length / 2) 5 (by omega) (by norm_num),
      F64.add_ofInt_nat _ (items.length / 2 * 5) (by omega) (by omega),
      Nat.mul_comm (items.length / 2) 5] at hq
    exact ⟨purchaseTime, purchaseDate, s0, s1, hh, mm, pDate, q, h3, h2, hs, h0, hm, hd,
      ha, hq, hsc.symm⟩

/-- C12 at the three items of a receipt that scores 11: 6 for the retailer
and 5 for the one pair. -/
theorem receipt_pair_bonus_witness :
    ∃ t d s0 s1 h m pDate q,
      (pairReceipt 3).PurchaseTime = some t ∧ (pairReceipt 3).PurchaseDate = some d ∧
      strings.Split t ':' = [s0, s1] ∧ strconv.Atoi s0 = some h ∧ strconv.Atoi s1 = some m ∧
      time.Parse d = some pDate ∧
      addQuarter (F64.ofRat 1 10) (addRoundDollar (F64.ofRat 1 10)
        (addRetailer "Target" (F64.ofInt 0))) =
        F64.ofInt (("Target".data.countP Char.isAlphanum + totalBonus (F64.ofRat 1 10) : Nat)
          : Int) ∧
      addItems (List.replicate 3 (some ⟨some "ab", some (F64.ofInt 1)⟩))
        (F64.ofInt (("Target".data.countP Char.isAlphanum + totalBonus (F64.ofRat 1 10) +
          5 * ((List.replicate 3 (some (⟨some "ab", some (F64.ofInt 1)⟩ : Item))).length / 2)
            : Nat) : Int)) = some q ∧
      F64.ofInt 11 = addOddDay pDate (addAfternoon h m q) :=
  receipt_pair_bonus (pairReceipt 3) (F64.ofInt 11) "Target" (F64.ofRat 1 10)
    (List.replicate 3 (some ⟨some "ab", some (F64.ofInt 1)⟩)) (by decide) rfl rfl rfl
    (by decide) (by decide)

/-- C17: a receipt with its five fields, a valid purchase time, a calendar
date and items that all have a description and a price is scored, and an item
at any place of the list whose description is empty or made of white space
only adds `ceil(price * 0.2)`: with `q1` the points the loop of lines 128-132
has accumulated over the items before it, the loop goes on over the items
after it from `q1 + ceil(price * 0.2)`, and the score `calculatePoints`
returns is what lines 134-140 make of the result. -/
theorem receipt_blank_description (retailer dt t : String) (total : F64)
    (pre post : List (String × F64)) (d : String) (price : F64)
    (ht : ValidTime t) (hd : ValidDate dt)
    (hb : ∀ c ∈ d.data, unicode.IsSpace c = true) :
    ∃ s0 s1 h m pDate q1 q,
      strings.Split t ':' = [s0, s1] ∧ strconv.Atoi s0 = some h ∧ strconv.Atoi s1 = some m ∧
      time.Parse dt = some pDate ∧
      addItems (fullItems pre)
        (addPairs (fullItems pre ++ some ⟨some d, some price⟩ :: fullItems post).length
          (addQuarter total (addRoundDollar total (addRetailer retailer (F64.ofInt 0))))) =
        some q1 ∧
      addItems (fullItems post) (q1.add (price.mul (F64.ofRat 2 10)).ceil) = some q ∧
      calculatePoints (some ⟨some retailer, some dt, some t, some total,
        some (fullItems pre ++ some ⟨some d, some price⟩ :: fullItems post)⟩) =
        Outcome.ret (addOddDay pDate (addAfternoon h m q)) none := by
  obtain ⟨s0, s1, hh, mm, hs, a0, hh0, hh1, a1, hm0, hm1⟩ := parsed_of_validTime t ht
  obtain ⟨pDate, hp⟩ := parsed_of_validDate dt hd
  have hfull : fullItems pre ++ some ⟨some d, some price⟩ :: fullItems post =
      fullItems (pre ++ (d, price) :: post) := by
    simp only [fullItems, List.map_append, List.map_cons]
  have hc : checkItems (fullItems pre ++ some ⟨some d, some price⟩ :: fullItems post) =
      ItemCheck.pass := by
    rw [hfull]; exact checkItems_full _
  have hl : len (strings.TrimSpace d) % 3 = 0 := by
    rw [TrimSpace_of_space d hb]; rfl
  have full : ∀ (ys : List (String × F64)) (points : F64),
      ∃ q, addItems (fullItems ys) points = some q := by
    intro ys
    induction ys with
    | nil => intro points; exact ⟨points, rfl⟩
    | cons x rest ih =>
      intro points
      simp only [fullItems, List.map_cons, addItems] at ih ⊢
      split
      · exact ih _
      · exact ih _
  obtain ⟨q1, hq1⟩ := full pre
    (addPairs (fullItems pre ++ some ⟨some d, some price⟩ :: fullItems post).length
      (addQuarter total (addRoundDollar total (addRetailer retailer (F64.ofInt 0)))))
  obtain ⟨q, hq⟩ := full post (q1.add (price.mul (F64.ofRat 2 10)).ceil)
  have hall : addItems (fullItems pre ++ some ⟨some d, some price⟩ :: fullItems post)
      (addPairs (fullItems pre ++ some ⟨some d, some price⟩ :: fullItems post).length
        (addQuarter total (addRoundDollar total (addRetailer retailer (F64.ofInt 0))))) =
      some q := by
    rw [addItems_append, hq1, Option.some_bind]
    simp only [addItems, hl, if_true]
    exact hq
  refine ⟨s0, s1, hh, mm, pDate, q1, q, hs, a0, a1, hp, hq1, hq, ?_⟩
  rw [calculatePoints_of_valid rfl rfl rfl rfl rfl hs a0 hh0 hh1 a1 hm0 hm1 hp hc]
  unfold score
  simp only [hall]

/-- C17 at the second of three items, of description two spaces and price
`10.00`, in a receipt that scores 15: 6 for the retailer, 5 for the pair, 2
for the blank item and 2 for the item `"xyz"`. -/
theorem receipt_blank_description_witness :
    ∃ s0 s1 h m pDate q1 q,
      strings.Split "13:01" ':' = [s0, s1] ∧ strconv.Atoi s0 = some h ∧
      strconv.Atoi s1 = some m ∧ time.Parse "2022-01-02" = some pDate ∧
      addItems (fullItems [("abcd", F64.ofInt 5)])
        (addPairs (fullItems [("abcd", F64.ofInt 5)] ++
            some ⟨some "  ", some (F64.ofInt 10)⟩ :: fullItems [("xyz", F64.ofInt 7)]).length
          (addQuarter (F64.ofRat 1 10) (addRoundDollar (F64.ofRat 1 10)
            (addRetailer "Target" (F64.ofInt 0))))) = some q1 ∧
      addItems (fullItems [("xyz", F64.ofInt 7)])
        (q1.add ((F64.ofInt 10).mul (F64.ofRat 2 10)).ceil) = some q ∧
      calculatePoints (some ⟨some "Target", some "2022-01-02", some "13:01",
        some (F64.ofRat 1 10),
        some (fullItems [("abcd", F64.ofInt 5)] ++
          some ⟨some "  ", some (F64.ofInt 10)⟩ :: fullItems [("xyz", F64.ofInt 7)])⟩) =
        Outcome.ret (addOddDay pDate (addAfternoon h m q)) none :=
  receipt_blank_description "Target" "2022-01-02" "13:01" (F64.ofRat 1 10)
    [("abcd", F64.ofInt 5)] [("xyz", F64.ofInt 7)] "  " (F64.ofInt 10)
    (validTime_of_HHMM '1' '3' '0' '1' (by decide) (by decide) (by decide) (by decide)
      (by decide) (by decide))
    ⟨2022, 1, 2, by decide, by decide, by decide, by decide, by decide, by decide⟩
    (by decide)

/-- C14: whatever the candidates the generator produces, the identifier
`generateId` returns is not a key of `pointsMap`; so of two calls of
`processReciept` in a row that store a score, the first adds the key `id1`,
which was not there, leaves the entry of every other key as it was, and the
second returns another identifier. -/
theorem fresh_identifier (unmarshal : String → Option (Option Receipt)) (m m1 m2 : PointsMap)
    (uuids u1 u2 : List String) (body1 body2 id1 id2 : String)
    (h1 : processReciept unmarshal m uuids (Except.ok body1) =
      Handled.responded ⟨200, Body.id id1⟩ m1 u1)
    (h2 : processReciept unmarshal m1 u1 (Except.ok body2) =
      Handled.responded ⟨200, Body.id id2⟩ m2 u2) :
    (∀ (pm : PointsMap) (us : List String) (id : String) (rest : List String),
      generateId pm us = some (id, rest) → pm.get id = none) ∧
    m.get id1 = none ∧ (∃ points, m1.get id1 = some points) ∧
    (∀ k, k ≠ id1 → m1.get k = m.get k) ∧ id2 ≠ id1 := by
  obtain ⟨r1, p1, -, -, hg1, hm1⟩ := processReciept_id_inv h1
  obtain ⟨r2, p2, -, -, hg2, -⟩ := processReciept_id_inv h2
  have f1 := (generateId_some m uuids id1 u1 hg1).1
  have f2 := (generateId_some m1 u1 id2 u2 hg2).1
  refine ⟨fun pm us id rest hg => (generateId_some pm us id rest hg).1, f1, ⟨p1, ?_⟩, ?_, ?_⟩
  · rw [hm1, PointsMap.get_set, if_pos rfl]
  · intro k hk
    rw [hm1, PointsMap.get_set, if_neg hk]
  · intro he
    rw [he, hm1, PointsMap.get_set, if_pos rfl] at f2
    cases f2

/-- C14 at two receipts sent in a row to an empty store, the generator
producing `a`, `a`, `b`: the identifiers are `a` and `b`. -/
theorem fresh_identifier_witness :
    (∀ (pm : PointsMap) (us : List String) (id : String) (rest : List String),
      generateId pm us = some (id, rest) → pm.get id = none) ∧
    PointsMap.get [] "a" = none ∧
    (∃ points, PointsMap.get [("a", F64.ofInt 28)] "a" = some points) ∧
    (∀ k, k ≠ "a" → PointsMap.get [("a", F64.ofInt 28)] k = PointsMap.get [] k) ∧
    "b" ≠ "a" :=
  fresh_identifier (decodeAs (some scenarioA)) [] [("a", F64.ofInt 28)]
    [("b", F64.ofInt 28), ("a", F64.ofInt 28)] ["a", "a", "b"] ["a", "b"] [] "" "" "a" "b"
    (by decide) (by decide)

/-- C15: for an identifier that is not a key, `getPoints` answers 404 with the
message `No receipt found for that id`, no points, and `pointsMap` is as it
was. -/
theorem getPoints_unknown (m : PointsMap) (id : String) (h : m.get id = none) :
    getPoints m id = (⟨404, Body.text "No receipt found for that id"⟩, m) := by
  unfold getPoints
  rw [h]

/-- C15 at the identifier `unknown-id` and a store with one other entry. -/
theorem getPoints_unknown_witness :
    getPoints [("a", F64.ofInt 28)] "unknown-id" =
      (⟨404, Body.text "No receipt found for that id"⟩, [("a", F64.ofInt 28)]) :=
  getPoints_unknown [("a", F64.ofInt 28)] "unknown-id" (by decide)

/-- C16: when the body is not decoded, or is decoded to a receipt on which
`calculatePoints` returns an error, `processReciept` answers 400 with the
message `The receipt is invalid`, takes no identifier from the generator and
leaves `pointsMap` as it was. -/
theorem rejection_atomic (unmarshal : String → Option (Option Receipt)) (m : PointsMap)
    (uuids : List String) (body : String)
    (h : unmarshal body = none ∨ ∃ r points msg, unmarshal body = some (some r) ∧
      calculatePoints (some r) = Outcome.ret points (some msg)) :
    processReciept unmarshal m uuids (Except.ok body) =
      Handled.responded ⟨400, Body.text "The receipt is invalid"⟩ m uuids := by
  rcases h with h | ⟨r, points, msg, hdec, hcalc⟩
  · simp only [processReciept, h]
  · simp only [processReciept, hdec, hcalc]

/-- C16 at the body `not json`, which is not decoded. -/
theorem rejection_atomic_witness :
    processReciept decodeNothing [("a", F64.ofInt 28)] ["b"] (Except.ok "not json") =
      Handled.responded ⟨400, Body.text "The receipt is invalid"⟩ [("a", F64.ofInt 28)] ["b"] :=
  rejection_atomic decodeNothing [("a", F64.ofInt 28)] ["b"] "not json" (Or.inl rfl)

/-- C13 fails as stated: the receipt with nine items `abc` at `1e308` is valid
and its score is `+Inf`; `processReciept` stores it under the identifier it
returns, and `getPoints` on that identifier answers 400 with the message of
the encoder, not the score. -/
theorem roundtrip_overflow_counterexample :
    calculatePoints (some overflowReceipt) = Outcome.ret (F64.inf false) none ∧
    processReciept (decodeAs (some overflowReceipt)) [] ["a"] (Except.ok "") =
      Handled.responded ⟨200, Body.id "a"⟩ [("a", F64.inf false)] [] ∧
    getPoints [("a", F64.inf false)] "a" =
      (⟨400, Body.text "json: unsupported value: +Inf"⟩, [("a", F64.inf false)]) := by
  decide

/-- C13, amended: when the body is decoded to a valid receipt and the
generator produces a candidate that is not a key, `processReciept` answers
with an identifier under which `pointsMap` then holds the score
`calculatePoints` computed; `getPoints` on that identifier answers 200 with
exactly that score when it is finite, and 400 when it is an infinity or a
NaN. -/
theorem roundtrip_finite (unmarshal : String → Option (Option Receipt)) (m : PointsMap)
    (uuids : List String) (body : String) (r : Receipt) (points : F64)
    (hdec : unmarshal body = some (some r))
    (hv : calculatePoints (some r) = Outcome.ret points none)
    (hfresh : ∃ t ∈ uuids, m.get t = none) :
    ∃ id rest,
      processReciept unmarshal m uuids (Except.ok body) =
        Handled.responded ⟨200, Body.id id⟩ (m.set id points) rest ∧
      (m.set id points).get id = some points ∧
      (points.isFinite = true →
        getPoints (m.set id points) id = (⟨200, Body.points points⟩, m.set id points)) ∧
      (points.isFinite = false → (getPoints (m.set id points) id).1.status = 400) := by
  obtain ⟨id, rest, hg⟩ := generateId_returns m uuids hfresh
  have hget : (m.set id points).get id = some points := by
    rw [PointsMap.get_set, if_pos rfl]
  refine ⟨id, rest, ?_, hget, ?_, ?_⟩
  · simp only [processReciept, hdec, hv, hg]
  · intro hfin
    unfold getPoints
    rw [hget]
    cases points with
    | nan => cases hfin
    | inf s => cases hfin
    | fin k hk => rfl
  · intro hfin
    unfold getPoints
    rw [hget]
    cases points with
    | nan => rfl
    | inf s => cases s <;> rfl
    | fin k hk => cases hfin

/-- C13, amended, at the upstream example sent to an empty store. -/
theorem roundtrip_finite_witness :
    ∃ id rest,
      processReciept (decodeAs (some scenarioA)) [] ["a"] (Except.ok "") =
        Handled.responded ⟨200, Body.id id⟩ (PointsMap.set [] id (F64.ofInt 28)) rest ∧
      (PointsMap.set [] id (F64.ofInt 28)).get id = some (F64.ofInt 28) ∧
      ((F64.ofInt 28).isFinite = true →
        getPoints (PointsMap.set [] id (F64.ofInt 28)) id =
          (⟨200, Body.points (F64.ofInt 28)⟩, PointsMap.set [] id (F64.ofInt 28))) ∧
      ((F64.ofInt 28).isFinite = false →
        (getPoints (PointsMap.set [] id (F64.ofInt 28)) id).1.status = 400) :=
  roundtrip_finite (decodeAs (some scenarioA)) [] ["a"] "" scenarioA (F64.ofInt 28) rfl
    (by decide) ⟨"a", List.mem_cons_self _ _, rfl⟩

/-- C18: a receipt with its five fields, a purchase time that is valid (every
`HH:MM` with the hour in `[0,23]` and the minute in `[0,59]` is), a purchase
date that is a calendar date `YYYY-MM-DD` and items that all have a
description and a price is scored: `calculatePoints` returns a nil error.
The list of items may be empty. -/
theorem valid_receipt_scored (retailer d t : String) (total : F64)
    (items : List (String × F64)) (ht : ValidTime t) (hd : ValidDate d) :
    ∃ p, calculatePoints (some ⟨some retailer, some d, some t, some total,
      some (fullItems items)⟩) = Outcome.ret p none := by
  obtain ⟨s0, s1, hh, mm, hs, a0, hh0, hh1, a1, hm0, hm1⟩ := parsed_of_validTime t ht
  obtain ⟨pDate, hp⟩ := parsed_of_validDate d hd
  rw [calculatePoints_of_valid rfl rfl rfl rfl rfl hs a0 hh0 hh1 a1 hm0 hm1 hp
    (checkItems_full items)]
  obtain ⟨q, hq⟩ := addItems_full items
    (addPairs (fullItems items).length (addQuarter total (addRoundDollar total
      (addRetailer retailer (F64.ofInt 0)))))
  unfold score
  simp only [hq]
  exact ⟨_, rfl⟩

/-- C19, at the failing inputs: on the `nil` receipt a body `null` is decoded
to, and on a receipt whose `items` are `[null]`, `calculatePoints` dereferences
a `nil` pointer; `processReciept` panics with it and writes no response. -/
theorem nil_dereference :
    calculatePoints none = Outcome.panic ∧
    calculatePoints (some nullItemReceipt) = Outcome.panic ∧
    processReciept (decodeAs none) [] ["a"] (Except.ok "null") = Handled.panic ∧
    processReciept (decodeAs (some nullItemReceipt)) [] ["a"] (Except.ok "") =
      Handled.panic := by
  decide

/-- C18 at the receipt with the time `13:01`, the date `2022-01-02` and an
empty list of items. -/
theorem valid_receipt_scored_witness :
    ∃ p, calculatePoints (some ⟨some "Target", some "2022-01-02", some "13:01",
      some (F64.ofRat 1 10), some (fullItems [])⟩) = Outcome.ret p none :=
  valid_receipt_scored "Target" "2022-01-02" "13:01" (F64.ofRat 1 10) []
    (validTime_of_HHMM '1' '3' '0' '1' (by decide) (by decide) (by decide) (by decide)
      (by decide) (by decide))
    ⟨2022, 1, 2, by decide, by decide, by decide, by decide, by decide, by decide⟩

/-- C20 fails as stated: the valid receipt with nine items `abc` at `1e308`
has the score `+Inf`, the sum having overflowed; an infinity is no whole
number, and the program's own test `x - floor(x) == 0` is false on it. -/
theorem score_overflow_counterexample :
    calculatePoints (some overflowReceipt) = Outcome.ret (F64.inf false) none ∧
    (F64.inf false).isWhole = false ∧
    ((F64.inf false).sub (F64.inf false).floor).eq (F64.ofInt 0) = false := by
  decide

/-- C20, amended: the score of a valid receipt, when it is a number and not an
infinity or a NaN, is a whole number, whatever the total and the prices. -/
theorem score_whole (r : Receipt) (p : F64)
    (hv : calculatePoints (some r) = Outcome.ret p none) (hfin : p.isFinite = true) :
    p.isWhole = true := by
  obtain ⟨retailer, purchaseDate, purchaseTime, total, items, s0, s1, hh, mm, pDate,
    -, -, -, -, -, -, -, -, -, -, -, -, -, -, hs⟩ := calculatePoints_ret_inv hv
  exact score_integral retailer total items hh mm pDate p hs hfin

/-- C20, amended, at the upstream example: 28 is a whole number. -/
theorem score_whole_witness : (F64.ofInt 28).isWhole = true :=
  score_whole scenarioA (F64.ofInt 28) (by decide) (by decide)

/-- An empty list and one item earn no pair bonus, two and three items 5, four
and five items 10. -/
theorem pair_examples :
    ∀ n ∈ [0, 1, 2, 3, 4, 5],
      addPairs n (F64.ofInt 0) = F64.ofInt ((5 * (n / 2) : Nat) : Int) := by
  decide

/-- Scored as receipts, the retailer `"Target"` adds 6, `"M&M Corner Market"`
14, the empty name 0 and `"Café №"` 3. -/
theorem retailer_receipt_examples :
    calculatePoints (some (retailerReceipt "Target")) = Outcome.ret (F64.ofInt 6) none ∧
    calculatePoints (some (retailerReceipt "M&M Corner Market")) =
      Outcome.ret (F64.ofInt 14) none ∧
    calculatePoints (some (retailerReceipt "")) = Outcome.ret (F64.ofInt 0) none ∧
    calculatePoints (some (retailerReceipt "Café №")) = Outcome.ret (F64.ofInt 3) none := by
  decide

/-- Scored as receipts that earn 6 otherwise, an empty list and one item earn
no pair bonus, two and three items 5, four and five items 10. -/
theorem pair_receipt_examples :
    ∀ n ∈ [0, 1, 2, 3, 4, 5],
      calculatePoints (some (pairReceipt n)) =
        Outcome.ret (F64.ofInt ((6 + 5 * (n / 2) : Nat) : Int)) none := by
  decide

/-- An empty description and descriptions of white space earn
`ceil(10.00 * 0.2) = 2`, as the first item, and as the second of three. -/
theorem blank_description_examples :
    (∀ d ∈ ["", " ", "  ", "\t \n"],
      calculatePoints (some (oneItemReceipt d)) = Outcome.ret (F64.ofInt 8) none) ∧
    calculatePoints (some blankItemReceipt) = Outcome.ret (F64.ofInt 15) none := by
  decide
